import Mathlib

/-!
Verification development for the EpiTator count annotator
(`epitator/count_annotator.py`) and the ITIS species importer
(`epitator/importers/import_species.py`).

The span-algebra core (AnnoSpan / SpanGroup / AnnoTier and its
combinators) is not part of the two source files; those components are
modelled from the specification document and each such definition is
marked `Modelled from the spec:`.  Everything else is translated
directly from the Python source.

Conventions of the shallow embedding:
* Python's `span.end` field is called `stop` (`end` is a Lean keyword).
* Character offsets are `Nat`; document text is a `String` sliced by
  character position, matching Python string slicing.
* The out-of-scope numeric parser `utils.parse_spelled_number` is a
  parameter `parse : String → Option ℚ` (`none` = unparsable); the
  concrete instantiation `digitsParse` used on scenario documents
  parses digit strings only.
* Fallible code (Python exceptions) returns `Except Unit`.
-/

namespace EpiTator

/-- Modelled from the spec: a Span / SpanGroup tree.  A `leaf` is a plain
`AnnoSpan` interval; a `node` is a `SpanGroup` made of constituent
spans, optionally carrying a role label.  (The spec: a composite span's
"metadata records each constituent under a role key".) -/
inductive MSpan : Type where
  | leaf (start stop : Nat)
  | node (base : List MSpan) (label : Option String)

/-- Concatenation of a list of lists (used for Python list accumulation). -/
def listFlat {α : Type} (ls : List (List α)) : List α :=
  ls.foldr (· ++ ·) []

mutual
/-- Modelled from the spec: a group span's interval is "the union of
constituents' extents"; its start is the minimum constituent start. -/
def spanStart : MSpan → Nat
  | .leaf s _ => s
  | .node bs _ => startsFold bs
def startsFold : List MSpan → Nat
  | [] => 0
  | [x] => spanStart x
  | x :: y :: ys => min (spanStart x) (startsFold (y :: ys))
end

mutual
/-- Modelled from the spec: a group span's end is the maximum constituent end. -/
def spanStop : MSpan → Nat
  | .leaf _ e => e
  | .node bs _ => stopsFold bs
def stopsFold : List MSpan → Nat
  | [] => 0
  | [x] => spanStop x
  | x :: y :: ys => max (spanStop x) (stopsFold (y :: ys))
end

/-- The label of a span tree node (leaves carry no role label). -/
def labelOf : MSpan → Option String
  | .leaf _ _ => none
  | .node _ l => l

/-- Modelled from the spec: spans are half-open intervals; two spans
overlap when they share at least one character position. -/
def overlapsB (a b : MSpan) : Bool :=
  decide (spanStart a < spanStop b) && decide (spanStart b < spanStop a)

/-- Modelled from the spec: `a.contains(b)` — `b`'s extent lies within `a`'s. -/
def containsB (a b : MSpan) : Bool :=
  decide (spanStart a ≤ spanStart b) && decide (spanStop b ≤ spanStop a)

/-- Modelled from the spec: `distance(other)` is "zero if overlapping,
else gap in offsets". -/
def distB (a b : MSpan) : Nat :=
  if overlapsB a b then 0
  else max (spanStart b - spanStop a) (spanStart a - spanStop b)

/-- Python string slice `t[s:e]` by character position. -/
def sliceText (t : String) (s e : Nat) : String :=
  String.mk ((t.toList.drop s).take (e - s))

mutual
/-- Modelled from the spec: pre-order listing of a span-group tree —
the group itself followed by every constituent, recursively (the
iteration order of `[self] + iterate_base_spans()`). -/
def iterSelf : MSpan → List MSpan
  | .leaf s e => [.leaf s e]
  | .node bs l => .node bs l :: iterList bs
def iterList : List MSpan → List MSpan
  | [] => []
  | x :: xs => iterSelf x ++ iterList xs
end

/-- Insert a labelled span into the accumulating role dictionary:
append to the existing role entry, else add a new entry at the tail
(Python dict insertion order). -/
def gdAdd (d : List (String × List MSpan)) (l : String) (sp : MSpan) :
    List (String × List MSpan) :=
  if d.any (fun e => e.1 = l) then
    d.map (fun e => if e.1 = l then (e.1, e.2 ++ [sp]) else e)
  else d ++ [(l, [sp])]

/-- One step of the role-dictionary accumulation: a labelled group is
recorded, anything else is skipped. -/
def gdStep (d : List (String × List MSpan)) (sp : MSpan) :
    List (String × List MSpan) :=
  match labelOf sp, sp with
  | some l, .node _ _ => gdAdd d l sp
  | _, _ => d

/-- Modelled from the spec: the role dictionary of a composite span —
"its metadata records each constituent under a role key, and repeated
matches of the same role accumulate as an ordered list".  Collects
every labelled group in the tree (itself included), in pre-order. -/
def groupdict (m : MSpan) : List (String × List MSpan) :=
  (iterSelf m).foldl gdStep []

/-- Lookup of one role's accumulated span list. -/
def gdGet (d : List (String × List MSpan)) (k : String) : Option (List MSpan) :=
  (d.find? (fun e => e.1 = k)).map (fun e => e.2)

/-- Python's `key in dict`. -/
def gdHas (d : List (String × List MSpan)) (k : String) : Bool :=
  (gdGet d k).isSome

/-- Outcome of `is_valid_count`: the boolean result, plus whether the
"Cannot parse count string" message was logged. -/
structure IvcOut where
  valid : Bool
  logged : Bool
deriving DecidableEq

/-- `is_valid_count` (count_annotator.py lines 48-65), with the
out-of-scope `utils.parse_spelled_number` as the parameter `parse`.
`count_string[0]` raises `IndexError` on an empty string (not caught by
the `(TypeError, ValueError)` handler), hence `Except`.  An unparsable
string (`parse = none`) makes `int(value)` raise `TypeError`, which is
caught and logged, returning `False`.  A fractional value or a value
above 1000000000 returns `False` without logging.  (Python binds
`value = parse_spelled_number(count_string)` before the index access;
as the parser is modelled as a total function, reading it at its use
site is equivalent.) -/
def isValidCountRun (parse : String → Option ℚ) (s : String) : Except Unit IvcOut :=
  match s.toList with
  | [] => .error ()
  | c :: _ =>
    if c = '0' then .ok ⟨false, false⟩
    else
      match parse s with
      | none => .ok ⟨false, true⟩
      | some q =>
        if q.den ≠ 1 then .ok ⟨false, false⟩
        else if q > 1000000000 then .ok ⟨false, false⟩
        else .ok ⟨true, false⟩

/-- The boolean used by the annotator pipeline at call sites where the
argument is a nonempty entity-span text. -/
def isValidCountB (parse : String → Option ℚ) (s : String) : Bool :=
  match isValidCountRun parse s with
  | .ok r => r.valid
  | .error _ => false

/-- Match of the joiner regex `\s(?:to|and|or)\s` at the head of the
character list, returning the match length (4 or 5). -/
def joinerAt (cs : List Char) : Option Nat :=
  match cs with
  | a :: b :: c :: d :: rest =>
    if a.isWhitespace && b = 't' && c = 'o' && d.isWhitespace then some 4
    else if a.isWhitespace && b = 'o' && c = 'r' && d.isWhitespace then some 4
    else if a.isWhitespace && b = 'a' && c = 'n' && d = 'd' &&
        (match rest with | e :: _ => e.isWhitespace | [] => false) then some 5
    else none
  | _ => none

/-- Scan step of the joiner search, structurally recursive on a fuel
bound (the remaining character count; each step consumes at least one
character). -/
def findJoinersF : Nat → List Char → Nat → List (Nat × Nat)
  | 0, _, _ => []
  | _ + 1, [], _ => []
  | fuel + 1, c :: rest, i =>
    match joinerAt (c :: rest) with
    | some n => (i, i + n) :: findJoinersF fuel (rest.drop (n - 1)) (i + n)
    | none => findJoinersF fuel rest (i + 1)

/-- `re.finditer(r'\s(?:to|and|or)\s', text)` — left-to-right,
non-overlapping matches, each reported as its `(start, end)` span
(count_annotator.py lines 92-94). -/
def findJoiners (cs : List Char) (i : Nat) : List (Nat × Nat) :=
  findJoinersF cs.length cs i

/-- Span ordering used before the optimal-subset recursion: by start
offset, then by end offset (the spec's tie-break: "earlier-starting,
then shorter span wins"). -/
def spanLe (a b : MSpan) : Bool :=
  decide (spanStart a < spanStart b) ||
    (decide (spanStart a = spanStart b) && decide (spanStop a ≤ spanStop b))

/-- Insertion of one span into a sorted list. -/
def insertSorted (x : MSpan) : List MSpan → List MSpan
  | [] => [x]
  | y :: ys => if spanLe x y then x :: y :: ys else y :: insertSorted x ys

/-- Insertion sort by `spanLe`. -/
def sortSpans : List MSpan → List MSpan
  | [] => []
  | x :: xs => insertSorted x (sortSpans xs)

/-- The two preference functions of `optimal_span_set` used by the
count annotator: the default call and `prefer='num_spans'`. -/
inductive Pref : Type where
  | textLength
  | numSpans

/-- Total character length of a list of spans. -/
def sumLens (l : List MSpan) : Nat :=
  (l.map (fun s => spanStop s - spanStart s)).foldr (· + ·) 0

/-- Modelled from the spec: the preference score of a candidate
non-overlapping combination, compared lexicographically.  The spec
describes the two preferences inconsistently (§4.3 swaps them against
the §8 range scenario, and §9 records the inconsistency as an open
question); we use the assignment under which the spec's own §8
scenarios hold: the default biases toward covering text, and
`num_spans` biases toward the greatest number of selected spans. -/
def scoreOf : Pref → List MSpan → Nat × Nat
  | .textLength, l => (sumLens l, 0)
  | .numSpans, l => (l.length, sumLens l)

/-- Strict lexicographic comparison of scores. -/
def pairLt (a b : Nat × Nat) : Bool :=
  decide (a.1 < b.1) || (decide (a.1 = b.1) && decide (a.2 < b.2))

/-- Modelled from the spec (§4.3): select a maximum-preference subset of
mutually non-overlapping spans.  Classic weighted-interval include /
exclude recursion over the start-sorted list; on score ties the branch
containing the earlier-starting span is kept (the spec's tie-break). -/
def optCore (pref : Pref) : Nat → List MSpan → List MSpan
  | _, [] => []
  | 0, _ :: _ => []
  | fuel + 1, s :: rest =>
    if pairLt
        (scoreOf pref (s :: optCore pref fuel (rest.filter (fun t => !(overlapsB s t)))))
        (scoreOf pref (optCore pref fuel rest)) then
      optCore pref fuel rest
    else s :: optCore pref fuel (rest.filter (fun t => !(overlapsB s t)))

/-- Modelled from the spec: `optimal_span_set(preference)`.  The fuel
argument of the recursion is the list length, which every recursive
call stays under, so the zero-fuel branch is never taken. -/
def optimalSpanSet (pref : Pref) (tier : List MSpan) : List MSpan :=
  optCore pref (sortSpans tier).length (sortSpans tier)

/-- Modelled from the spec: `without_overlaps(other)` "returns only
Spans from self that do not overlap any Span in `other_tier`"
(dropped entirely, not truncated). -/
def withoutOverlaps (self other : List MSpan) : List MSpan :=
  self.filter (fun s => !(other.any (fun o => overlapsB s o)))

/-- Modelled from the spec: `label(name, spans)` wraps every span in a
group carrying role `name` (`ra.label`; `name = none` wraps without a
role, as `search_lemmas` / `search_regex` do). -/
def labelTier (name : Option String) (spans : List MSpan) : List MSpan :=
  spans.map (fun s => .node [s] name)

/-- One step of the `follows` chain: all composites of a left span and
a right span starting at or after its end, within `maxDist` characters. -/
def follows2 (maxDist : Nat) (a b : List MSpan) : List MSpan :=
  listFlat (a.map (fun x =>
    (b.filter (fun y =>
      decide (spanStop x ≤ spanStart y) &&
        decide (spanStart y - spanStop x ≤ maxDist))).map
      (fun y => MSpan.node [x, y] none)))

/-- The left fold of the `follows` chain over the remaining tiers. -/
def followsFrom (maxDist : Nat) : List MSpan → List (List MSpan) → List MSpan
  | acc, [] => acc
  | acc, t :: ts => followsFrom maxDist (follows2 maxDist acc t) ts

/-- Modelled from the spec: `follows([T1, …, Tn])` — the sequential
adjacency combinator; `s1` must end at or before `s2` starts, within a
maximum gap (the spec leaves the default gap as "sentence-scale"; the
model uses 100 characters). -/
def followsAll (maxDist : Nat) : List (List MSpan) → List MSpan
  | [] => []
  | t :: ts => followsFrom maxDist t ts

/-- Modelled from the spec: `with_nearby_spans_from(other, max_dist)` —
for each span of `self`, the spans of `other` within `max_dist`
accumulate into one composite (no cross product); spans of `self` with
no nearby span produce nothing. -/
def withNearby (self other : List MSpan) (maxDist : Nat) : List MSpan :=
  listFlat (self.map (fun s =>
    let ns := other.filter (fun o => decide (distB s o ≤ maxDist))
    if ns.isEmpty then [] else [MSpan.node (s :: ns) none]))

/-- Modelled from the spec: `group_spans_by_containing_span(candidates,
allow_partial_containment)` — one `(container, group)` pair per span of
the tier, empty groups included; partial containment means mere
overlap. -/
def groupByContaining (tier cands : List MSpan) (allowPartial : Bool) :
    List (MSpan × List MSpan) :=
  tier.map (fun c =>
    (c, cands.filter (fun x => if allowPartial then overlapsB c x else containsB c x)))

/-- A spaCy token as consumed by the annotator (spec §6: each token
span exposes lemma, part-of-speech tag, and syntactic children; the
annotator reads the children lowercased). -/
structure Token where
  start : Nat
  stop : Nat
  lem : String
  tag : String
  childrenLower : List String

/-- A named-entity span with its entity-type label. -/
structure NE where
  start : Nat
  stop : Nat
  label : String

/-- A sentence span.  Modelled from the spec: the sentence-similarity
oracle (§6) is out of scope, so each sentence carries the precomputed
outcome of `max similarity(case senses) > max similarity(non-case
senses)` used by the word-sense filter. -/
structure Sent where
  start : Nat
  stop : Nat
  isCaseSense : Bool

/-- A document together with the base tiers produced by the external
linguistic front end (spec §6): tokens, sentences, named entities, and
the date tier produced by the date annotator. -/
structure Doc where
  text : String
  tokens : List Token
  sentences : List Sent
  nes : List NE
  dates : List (Nat × Nat)

/-- The text of a token span (substring of the document). -/
def tokenText (doc : Doc) (t : Token) : String :=
  sliceText doc.text t.start t.stop

/-- The text of a named-entity span. -/
def neText (doc : Doc) (ne : NE) : String :=
  sliceText doc.text ne.start ne.stop

/-- The text of a span tree. -/
def spanText (doc : Doc) (m : MSpan) : String :=
  sliceText doc.text (spanStart m) (spanStop m)

/-- The five regex terms used through `search_regex` in
`CountAnnotator.annotate`. -/
inductive RegexTerm : Type where
  | joiner
  | age
  | ofTerm
  | km
  | deaths

/-- Lowercase a string (the compiled regexes use `re.I`). -/
def lowerStr (s : String) : String :=
  String.mk (s.toList.map Char.toLower)

/-- Leading-substring test on character lists. -/
def startsWithB : List Char → List Char → Bool
  | [], _ => true
  | _ :: _, [] => false
  | p :: ps, c :: cs => p = c && startsWithB ps cs

/-- Semantics of `re.compile('^' + term + '$', re.I).match(text)` for
each term used by the annotator.  Note the Python precedence quirk:
in `'^to|and|or$'` the anchors bind to the first and last alternative
only, and `.match` anchors every alternative at position 0 — so the
pattern accepts any text starting with "to" or "and", or equal to
"or"; likewise `'^kilometers|km|miles|mi$'` accepts prefixes
"kilometers", "km", "miles" or the exact word "mi".
`'^deaths(\s?:)?$'` accepts "deaths", "deaths:", or "deaths", one
whitespace and ":". -/
def regexMatches (term : RegexTerm) (t : String) : Bool :=
  let cs := t.toList
  match term with
  | .joiner =>
    startsWithB ['t', 'o'] cs || startsWithB ['a', 'n', 'd'] cs ||
      decide (cs = ['o', 'r'])
  | .age => decide (cs = ['a', 'g', 'e'])
  | .ofTerm => decide (cs = ['o', 'f'])
  | .km =>
    startsWithB ['k', 'i', 'l', 'o', 'm', 'e', 't', 'e', 'r', 's'] cs ||
      startsWithB ['k', 'm'] cs || startsWithB ['m', 'i', 'l', 'e', 's'] cs ||
      decide (cs = ['m', 'i'])
  | .deaths =>
    match cs with
    | 'd' :: 'e' :: 'a' :: 't' :: 'h' :: 's' :: rest =>
      match rest with
      | [] => true
      | [':'] => true
      | [w, ':'] => w.isWhitespace
      | _ => false
    | _ => false

/-- `search_regex(term, match_name)` (count_annotator.py lines 68-74,
103-105): the token spans whose text matches the anchored
case-insensitive regex, each wrapped by `ra.label(match_name, ·)`. -/
def searchRegexTier (doc : Doc) (term : RegexTerm) (name : Option String) :
    List MSpan :=
  labelTier name
    ((doc.tokens.filter (fun t => regexMatches term (lowerStr (tokenText doc t)))).map
      (fun t => MSpan.leaf t.start t.stop))

/-- `search_lemmas(lemmas, match_name)` (count_annotator.py lines
107-115): the token spans whose lemma is in the set, wrapped by
`ra.label(match_name, ·)`. -/
def searchLemmas (doc : Doc) (lems : List String) (name : Option String) :
    List MSpan :=
  labelTier name
    ((doc.tokens.filter (fun t => lems.contains t.lem)).map
      (fun t => MSpan.leaf t.start t.stop))

/-- The count candidates (count_annotator.py lines 86-101): every
QUANTITY/CARDINAL entity whose text passes `is_valid_count` becomes a
`'count'` group; a failing entity text containing exactly one joiner
(` to `, ` and `, ` or `) contributes the valid sides of the joiner as
`'count'` groups instead. -/
def candidateCounts (parse : String → Option ℚ) (doc : Doc) : List MSpan :=
  listFlat (doc.nes.map (fun ne =>
    if ne.label = "QUANTITY" || ne.label = "CARDINAL" then
      if isValidCountB parse (neText doc ne) then
        [MSpan.node [.leaf ne.start ne.stop] (some "count")]
      else
        match findJoiners (neText doc ne).toList 0 with
        | [(a, b)] =>
          (if isValidCountB parse (sliceText doc.text ne.start (ne.start + a)) then
            [MSpan.node [.leaf ne.start (ne.start + a)] (some "count")] else []) ++
          (if isValidCountB parse (sliceText doc.text (ne.start + b) ne.stop) then
            [MSpan.node [.leaf (ne.start + b) ne.stop] (some "count")] else [])
        | _ => []
    else []))

/-- The count ranges (lines 117-121):
`follows([counts, label('range', follows([search_regex('to|and|or'), counts]))])`. -/
def rangesColl (parse : String → Option ℚ) (doc : Doc) : List MSpan :=
  followsAll 100
    [candidateCounts parse doc,
     labelTier (some "range")
       (followsAll 100 [searchRegexTier doc .joiner none, candidateCounts parse doc])]

/-- Line 122: `AnnoTier(ranges + counts).optimal_span_set()`. -/
def countsTier1 (parse : String → Option ℚ) (doc : Doc) : List MSpan :=
  optimalSpanSet .textLength (rangesColl parse doc ++ candidateCounts parse doc)

/-- Lines 123-125: remove counts that overlap an age
(`follows([search_regex('age'), search_regex('of'), counts])`). -/
def countsTier2 (parse : String → Option ℚ) (doc : Doc) : List MSpan :=
  withoutOverlaps (countsTier1 parse doc)
    (followsAll 100
      [searchRegexTier doc .age none, searchRegexTier doc .ofTerm none,
       candidateCounts parse doc])

/-- Lines 126-128: remove distances
(`follows([counts, search_regex('kilometers|km|miles|mi')])`). -/
def countsTier3 (parse : String → Option ℚ) (doc : Doc) : List MSpan :=
  withoutOverlaps (countsTier2 parse doc)
    (followsAll 100 [candidateCounts parse doc, searchRegexTier doc .km none])

/-- The date tier as plain spans. -/
def dateSpans (doc : Doc) : List MSpan :=
  doc.dates.map (fun d => .leaf d.1 d.2)

/-- Lines 129-130: remove counts that overlap a date. -/
def countsTier4 (parse : String → Option ℚ) (doc : Doc) : List MSpan :=
  withoutOverlaps (countsTier3 parse doc) (dateSpans doc)

/-- The modifier lemma groups (lines 131-141); the first lemma of each
group is its role name. -/
def modifierGroups : List (List String) :=
  [["average", "mean"],
   ["annual", "annually"],
   ["monthly"],
   ["weekly"],
   ["cumulative", "total", "already"],
   ["incremental", "new", "additional", "recent"],
   ["max", "less", "below", "under", "most", "maximum", "up"],
   ["min", "greater", "above", "over", "least", "minimum", "down", "exceeds"],
   ["approximate", "about", "near", "around"]]

/-- Lines 142-146: `count_descriptions` accumulates, for each modifier
group in turn, the composites of the current descriptions with nearby
modifier tokens. -/
def countDescriptions (parse : String → Option ℚ) (doc : Doc) : List MSpan :=
  modifierGroups.foldl
    (fun cd g => cd ++ withNearby cd (searchLemmas doc g (some (g.headD ""))) 100)
    (countsTier4 parse doc)

/-- Lines 147-165: the death / hospitalization / case description spans. -/
def caseDescriptions0 (doc : Doc) : List MSpan :=
  labelTier (some "death")
      (searchLemmas doc ["death", "die", "kill", "claim", "fatality", "deceased"] none) ++
    labelTier (some "hospitalization")
      (searchLemmas doc ["hospital", "hospitalize"] none) ++
    labelTier (some "case")
      (searchLemmas doc ["case", "infect", "infection", "stricken"] none)

/-- Lines 166-168: suspected / confirmed status spans. -/
def caseStatuses (doc : Doc) : List MSpan :=
  searchLemmas doc ["suspect"] (some "suspected") ++
    searchLemmas doc ["confirm"] (some "confirmed")

/-- Lines 169-171:
`AnnoTier(follows([case_statuses, case_descriptions]) + case_descriptions).optimal_span_set()`. -/
def caseDescriptions1 (doc : Doc) : List MSpan :=
  optimalSpanSet .textLength
    (followsAll 100 [caseStatuses doc, caseDescriptions0 doc] ++ caseDescriptions0 doc)

/-- Lines 172-178: person descriptions, labelled `'case'`. -/
def personDescriptions (doc : Doc) : List MSpan :=
  searchLemmas doc ["adult", "senior", "patient", "life", "child", "person"]
    (some "case")

/-- Line 179: `case_descriptions += person_descriptions +
person_descriptions.with_nearby_spans_from(case_descriptions)`. -/
def caseDescriptions2 (doc : Doc) : List MSpan :=
  caseDescriptions1 doc ++ personDescriptions doc ++
    withNearby (personDescriptions doc) (caseDescriptions1 doc) 100

/-- Lines 180-182: case descriptions with a nearby count description
(`max_dist=50`). -/
def caseDescWithCounts (parse : String → Option ℚ) (doc : Doc) : List MSpan :=
  withNearby (caseDescriptions2 doc) (countDescriptions parse doc) 50

/-- Lines 183-194: singular case tokens — lemma case / fatality /
death / hospitalization, tag `NN`, with a determiner `a`/`an`/`the`
among the token's children. -/
def singularSpans (doc : Doc) : List MSpan :=
  (doc.tokens.filter (fun t =>
    (["case", "fatality", "death", "hospitalization"].contains t.lem) &&
      t.tag = "NN" &&
      t.childrenLower.any (fun c => c = "a" || c = "an" || c = "the"))).map
    (fun t => MSpan.leaf t.start t.stop)

/-- The sentence tier as plain spans. -/
def sentSpans (doc : Doc) : List MSpan :=
  doc.sentences.map (fun s => .leaf s.start s.stop)

/-- Lines 195-209: word-sense filtering of the singular case spans —
keep the groups of the sentences whose case-count sense similarity
wins (the similarity outcome is the `isCaseSense` input). -/
def filteredSingular (doc : Doc) : List MSpan :=
  listFlat (doc.sentences.map (fun s =>
    let g := (singularSpans doc).filter
      (fun x => containsB (.leaf s.start s.stop) x)
    if g.isEmpty then [] else if s.isCaseSense then g else []))

/-- Lines 210-216: the case descriptions that (partially) contain a
filtered singular case span. -/
def singularCaseDescriptions (doc : Doc) : List MSpan :=
  listFlat ((groupByContaining (caseDescriptions2 doc) (filteredSingular doc) true).map
    (fun p => if p.2.isEmpty then [] else [p.1]))

/-- Lines 219-226: all potential counts — case descriptions with
counts, `follows([search_regex('deaths(\s?:)?', 'death'), counts_tier])`,
count descriptions, and singular case descriptions, in that order. -/
def allPotential (parse : String → Option ℚ) (doc : Doc) : List MSpan :=
  caseDescWithCounts parse doc ++
    followsAll 100 [searchRegexTier doc .deaths (some "death"), countsTier4 parse doc] ++
    countDescriptions parse doc ++
    singularCaseDescriptions doc

/-- Lines 228-230: keep only the potential counts contained in a single
sentence. -/
def singleSentenceCounts (parse : String → Option ℚ) (doc : Doc) : List MSpan :=
  listFlat ((groupByContaining (sentSpans doc) (allPotential parse doc) false).map
    (fun p => p.2))

/-- Lines 231-232: the final selection,
`optimal_span_set(prefer='num_spans')`. -/
def annotatedCounts (parse : String → Option ℚ) (doc : Doc) : List MSpan :=
  optimalSpanSet .numSpans (singleSentenceCounts parse doc)

/-- The metadata dict attached to every emitted `CountSpan`
(count_annotator.py lines 268-283 always supply exactly the keys
`text`, `attributes`, `count`).  `count` is `none` when Python would
store `None` (an unparsable count text). -/
structure CountMeta where
  text : String
  attributes : List String
  count : Option ℚ
deriving DecidableEq

/-- `CountSpan` (count_annotator.py lines 34-40): copies the
constituent span's offsets and document, sets `label` to the
constituent span's *text*, and stores the metadata.  No validation is
performed. -/
structure CountSpan where
  start : Nat
  stop : Nat
  doc : String
  label : String
  metadata : CountMeta
deriving DecidableEq

/-- `CountSpan.__init__(span, metadata)` applied to the projections of
the constituent span. -/
def mkCountSpan (spStart spStop : Nat) (spDoc spText : String)
    (meta : CountMeta) : CountSpan :=
  ⟨spStart, spStop, spDoc, spText, meta⟩

/-- Modelled from the spec: `AnnoSpan` construction validates
`0 <= start <= end <= document_length`; a malformed interval
(`start > end`) is rejected, never silently clamped (spec §3, §7a). -/
def mkAnnoSpan (s e docLen : Nat) : Option (Nat × Nat) :=
  if s ≤ e ∧ e ≤ docLen then some (s, e) else none

/-- The half-open overlap test applied to two result `CountSpan`s
(`CountSpan` is an `AnnoSpan` in Python, so `overlaps` applies to it). -/
def overlapsCS (a b : CountSpan) : Bool :=
  decide (a.start < b.stop) && decide (b.start < a.stop)

/-- The half-open overlap test between a result `CountSpan` and a plain
`(start, end)` span such as a date-tier span. -/
def csOverlapsSpan (cs : CountSpan) (p : Nat × Nat) : Bool :=
  decide (cs.start < p.2) && decide (p.1 < cs.stop)

/-- A serialized dictionary value. -/
inductive DVal : Type where
  | num (q : ℚ)
  | str (s : String)
  | strs (l : List String)
  | null
deriving DecidableEq

/-- Modelled from the spec: the base `AnnoSpan.to_dict()` "serializes
offsets, label, text" (§4.1, §6). -/
def annoSpanToDict (start stop : Nat) (text lab : String) : List (String × DVal) :=
  [("start", .num start), ("end", .num stop), ("text", .str text), ("label", .str lab)]

/-- Python `dict.update`: existing keys are overwritten in place, new
keys are appended in order. -/
def updateAssoc (d kvs : List (String × DVal)) : List (String × DVal) :=
  kvs.foldl
    (fun acc kv =>
      if acc.any (fun e => e.1 = kv.1) then
        acc.map (fun e => if e.1 = kv.1 then kv else e)
      else acc ++ [kv])
    d

/-- The serialized count value (`None` becomes a null). -/
def countDVal : Option ℚ → DVal
  | some q => .num q
  | none => .null

/-- `CountSpan.to_dict` (count_annotator.py lines 42-45): the base
span dict updated with the metadata. -/
def countSpanToDict (cs : CountSpan) : List (String × DVal) :=
  updateAssoc
    (annoSpanToDict cs.start cs.stop (sliceText cs.doc cs.start cs.stop) cs.label)
    [("text", .str cs.metadata.text),
     ("attributes", .strs cs.metadata.attributes),
     ("count", countDVal cs.metadata.count)]

/-- Lookup in a serialized dictionary. -/
def dictGet (d : List (String × DVal)) (k : String) : Option DVal :=
  (d.find? (fun e => e.1 = k)).map (fun e => e.2)

/-- The attribute names recognized at emission (lines 233-248);
the Python list is already alphabetically sorted. -/
def attributesList : List String :=
  ["annual", "approximate", "average", "case", "confirmed", "cumulative",
   "death", "hospitalization", "incremental", "max", "min", "monthly",
   "suspected", "weekly"]

/-- Lexicographic comparison of strings by character code (Python's
string ordering used by `sorted`). -/
def charsLe : List Char → List Char → Bool
  | [], _ => true
  | _ :: _, [] => false
  | a :: as_, b :: bs =>
    decide (a.toNat < b.toNat) || (decide (a = b) && charsLe as_ bs)

/-- String comparison for `sorted`. -/
def strLeB (a b : String) : Bool :=
  charsLe a.toList b.toList

/-- Insertion into a sorted string list. -/
def insertStr (x : String) : List String → List String
  | [] => [x]
  | y :: ys => if strLeB x y then x :: y :: ys else y :: insertStr x ys

/-- Python `sorted` on a list of strings. -/
def sortStrs : List String → List String
  | [] => []
  | x :: xs => insertStr x (sortStrs xs)

/-- The matched attribute set of one selected match (count_annotator.py
lines 251-257): the recognized attributes found in the match's group
dictionary, with `'case'` added when `'death'` or `'hospitalization'`
is present. -/
def matchedAttrs (d : List (String × List MSpan)) : List String :=
  let base := attributesList.filter (fun a => gdHas d a)
  if gdHas d "death" || gdHas d "hospitalization" then
    if base.contains "case" then base else "case" :: base
  else base

/-- The count value of one selected match (lines 258-263): the parse of
the first `'count'` group's text, or 1 when no `'count'` role is
present (singular case reports). -/
def matchCount (parse : String → Option ℚ) (doc : Doc)
    (d : List (String × List MSpan)) : Except Unit (Option ℚ) :=
  if gdHas d "count" then
    match gdGet d "count" with
    | some (c :: _) => .ok (parse (spanText doc c))
    | _ => .error ()
  else .ok (some 1)

/-- Emission of the count spans of one selected match
(count_annotator.py lines 249-283).  Python raises `KeyError`
(= `.error`) if a `'range'` group carries no `'count'` group or a
dictionary entry is empty; the pipeline never produces such matches. -/
def emitOne (parse : String → Option ℚ) (doc : Doc) (m : MSpan) :
    Except Unit (List CountSpan) :=
  if gdHas (groupdict m) "range" then
    match gdGet (groupdict m) "range" with
    | some (rg :: _) =>
      match gdGet (groupdict rg) "count" with
      | some (c0 :: _) =>
        match matchCount parse doc (groupdict m) with
        | .ok cnt =>
          .ok [mkCountSpan (spanStart m) (spanStop m) doc.text (spanText doc m)
                ⟨spanText doc m,
                 sortStrs (matchedAttrs (groupdict m) ++ ["min"]), cnt⟩,
               mkCountSpan (spanStart rg) (spanStop rg) doc.text (spanText doc rg)
                ⟨spanText doc c0,
                 sortStrs (matchedAttrs (groupdict m) ++ ["max"]),
                 parse (spanText doc c0)⟩]
        | .error e => .error e
      | _ => .error ()
    | _ => .error ()
  else
    match matchCount parse doc (groupdict m) with
    | .ok cnt =>
      .ok [mkCountSpan (spanStart m) (spanStop m) doc.text (spanText doc m)
            ⟨spanText doc m, sortStrs (matchedAttrs (groupdict m)), cnt⟩]
    | .error e => .error e

/-- The emission loop over all selected matches. -/
def emitAll (parse : String → Option ℚ) (doc : Doc) :
    List MSpan → Except Unit (List CountSpan)
  | [] => .ok []
  | m :: ms =>
    match emitOne parse doc m with
    | .ok a =>
      match emitAll parse doc ms with
      | .ok b => .ok (a ++ b)
      | .error e => .error e
    | .error e => .error e

/-- `CountAnnotator.annotate` (count_annotator.py lines 78-284): the
full pipeline; the returned list is the `'counts'` tier. -/
def annotateCounts (parse : String → Option ℚ) (doc : Doc) :
    Except Unit (List CountSpan) :=
  emitAll parse doc (annotatedCounts parse doc)

/-- Modelled from the spec: the out-of-scope numeric parser
(`utils.parse_spelled_number`, "twelve" → 12), instantiated for the
scenario documents: a nonempty all-digit string parses to its decimal
value, anything else fails to parse. -/
def digitsParse (s : String) : Option ℚ :=
  let cs := s.toList
  if cs ≠ [] ∧ cs.all Char.isDigit then
    some ((cs.foldl (fun n c => 10 * n + (c.toNat - 48)) 0 : Nat) : ℚ)
  else none

/-- Invariant of every match tree the pipeline builds: each
`'count'`-labelled group is one of the validated count candidates (its
text passes `is_valid_count`), and each `'range'`-labelled group
contains a `'count'`-labelled group. -/
def TreeOk (parse : String → Option ℚ) (doc : Doc) (m : MSpan) : Prop :=
  ∀ sub ∈ iterSelf m,
    (labelOf sub = some "count" → isValidCountB parse (spanText doc sub) = true) ∧
    (labelOf sub = some "range" → ∃ c ∈ iterSelf sub, labelOf c = some "count")

/-- A row of the epitator `metadata` table. -/
structure MetaRow where
  property : String
  value : String
deriving DecidableEq

/-- A row of the epitator `entities` table
(`INSERT INTO entities VALUES (?, ?, 'species', 'ITIS')`). -/
structure EntityRow where
  id : String
  name : String
  kind : String
  source : String
deriving DecidableEq

/-- A row of the epitator `synonyms` table. -/
structure SynRow where
  synonym : String
  entityId : String
  weight : Nat
deriving DecidableEq

/-- The relevant state of the epitator sqlite database. -/
structure DB where
  entities : List EntityRow
  synonyms : List SynRow
  metadata : List MetaRow
deriving DecidableEq

/-- A row of the ITIS `taxonomic_units` table used by the importer. -/
structure TaxUnit where
  tsn : Nat
  completeName : String
  rankId : Nat
  kingdomId : Nat

/-- A result row of the ITIS longnames/vernaculars union query:
a name with its reference count. -/
structure NameRef where
  tsn : Nat
  name : String
  refs : Nat

/-- The downloaded ITIS database content (the network download of
`import_species.py` is abstracted to this input). -/
structure ItisData where
  version : String
  taxUnits : List TaxUnit
  nameRefs : List NameRef

/-- `INSERT OR IGNORE` into `synonyms_init`: keep the first occurrence
of each exact triple. -/
def insertOrIgnore (acc : List SynRow) (r : SynRow) : List SynRow :=
  if acc.contains r then acc else acc ++ [r]

/-- The `synonyms_init` temporary table built from the ITIS name rows
(import_species.py lines 78-113): weight is the reference count capped
at 3; exact duplicate triples are ignored. -/
def synonymsInit (rows : List NameRef) : List SynRow :=
  rows.foldl
    (fun acc r =>
      insertOrIgnore acc
        ⟨r.name, "tsn:" ++ toString r.tsn, if r.refs ≥ 3 then 3 else r.refs⟩)
    []

/-- The final aggregation (lines 115-120): `SELECT synonym, entity_id,
max(weight) FROM synonyms_init GROUP BY synonym, entity_id`, one row
per distinct (synonym, entity id) pair. -/
def aggregateSynonyms (init : List SynRow) : List SynRow :=
  (init.map (fun r => (r.synonym, r.entityId))).eraseDups.map
    (fun p =>
      ⟨p.1, p.2,
        ((init.filter (fun r => r.synonym = p.1 ∧ r.entityId = p.2)).map
          (fun r => r.weight)).foldr max 0⟩)

/-- `import_species(drop_previous)` (import_species.py lines 41-124)
over the modelled database state.  With `drop_previous` the previous
ITIS entities, their synonyms and the `itis_version` metadata row are
deleted first; if an `itis_version` metadata row is (still) present
the function prints a notice and returns with the database unchanged;
otherwise the version row, the animal species entities (`rank_id >
100`, `kingdom_id = 5`) and the aggregated synonyms are inserted. -/
def importSpecies (dropPrevious : Bool) (itis : ItisData) (db : DB) : DB :=
  let db :=
    if dropPrevious then
      let itisIds := (db.entities.filter (fun e => e.source = "ITIS")).map (fun e => e.id)
      { entities := db.entities.filter (fun e => ¬ e.source = "ITIS"),
        synonyms := db.synonyms.filter (fun s => ¬ itisIds.contains s.entityId),
        metadata := db.metadata.filter (fun m => ¬ m.property = "itis_version") }
    else db
  if db.metadata.any (fun m => m.property = "itis_version") then db
  else
    { entities :=
        db.entities ++
          (itis.taxUnits.filter (fun t => t.rankId > 100 ∧ t.kingdomId = 5)).map
            (fun t => ⟨"tsn:" ++ toString t.tsn, t.completeName, "species", "ITIS"⟩),
      synonyms := db.synonyms ++ aggregateSynonyms (synonymsInit itis.nameRefs),
      metadata := db.metadata ++ [⟨"itis_version", itis.version⟩] }

/-! ## Scenario documents -/

/-- The spec §8 range scenario: `"between 5 and 10 cases"`, with the
front-end tiers the scenario prescribes (one CARDINAL entity covering
"5 and 10"). -/
def docRange : Doc :=
  { text := "between 5 and 10 cases",
    tokens := [⟨0, 7, "between", "IN", []⟩, ⟨8, 9, "5", "CD", []⟩,
               ⟨10, 13, "and", "CC", []⟩, ⟨14, 16, "10", "CD", []⟩,
               ⟨17, 22, "case", "NNS", []⟩],
    sentences := [⟨0, 22, false⟩],
    nes := [⟨8, 16, "CARDINAL"⟩],
    dates := [] }

/-- A document whose case-description/count composite stretches over a
date span: `"cases in March: 3"` with "March" in the dates tier. -/
def docDateBetween : Doc :=
  { text := "cases in March: 3",
    tokens := [⟨0, 5, "case", "NNS", []⟩, ⟨6, 8, "in", "IN", []⟩,
               ⟨9, 14, "march", "NNP", []⟩, ⟨14, 15, ":", ":", []⟩,
               ⟨16, 17, "3", "CD", []⟩],
    sentences := [⟨0, 17, false⟩],
    nes := [⟨16, 17, "CARDINAL"⟩],
    dates := [(9, 14)] }

/-- A singular case report with no count number: `"a new case"`
(the `case` token has tag NN and determiner child "a"; the sentence's
case-count sense wins). -/
def docSingular : Doc :=
  { text := "a new case",
    tokens := [⟨0, 1, "a", "DT", []⟩, ⟨2, 5, "new", "JJ", []⟩,
               ⟨6, 10, "case", "NN", ["a"]⟩],
    sentences := [⟨0, 10, true⟩],
    nes := [],
    dates := [] }

/-- A death count: `"3 deaths"`. -/
def docDeaths : Doc :=
  { text := "3 deaths",
    tokens := [⟨0, 1, "3", "CD", []⟩, ⟨2, 8, "death", "NNS", []⟩],
    sentences := [⟨0, 8, false⟩],
    nes := [⟨0, 1, "CARDINAL"⟩],
    dates := [] }

/-! ## Lemmas about the overlap resolver -/

theorem insertSorted_mem {x a : MSpan} {l : List MSpan} :
    a ∈ insertSorted x l ↔ a = x ∨ a ∈ l := by
  induction l with
  | nil => simp [insertSorted]
  | cons y ys ih =>
    simp only [insertSorted]
    split
    · simp
    · simp only [List.mem_cons, ih]
      tauto

theorem sortSpans_mem {a : MSpan} {l : List MSpan} :
    a ∈ sortSpans l ↔ a ∈ l := by
  induction l with
  | nil => simp [sortSpans]
  | cons x xs ih => simp [sortSpans, insertSorted_mem, ih]

theorem optCore_sub (pref : Pref) :
    ∀ fuel (l : List MSpan), ∀ a ∈ optCore pref fuel l, a ∈ l := by
  intro fuel
  induction fuel with
  | zero =>
    intro l a ha
    cases l <;> simp [optCore] at ha
  | succ fuel ih =>
    intro l a ha
    match l with
    | [] => simp [optCore] at ha
    | s :: rest =>
      rw [optCore] at ha
      split at ha
      · exact List.mem_cons_of_mem s (ih rest a ha)
      · rcases List.mem_cons.mp ha with h | h
        · exact h ▸ List.mem_cons_self s rest
        · have hf : a ∈ rest.filter (fun t => !(overlapsB s t)) := ih _ a h
          exact List.mem_cons_of_mem s (List.mem_filter.mp hf).1

theorem optCore_pairwise (pref : Pref) :
    ∀ fuel (l : List MSpan),
      (optCore pref fuel l).Pairwise (fun a b => overlapsB a b = false) := by
  intro fuel
  induction fuel with
  | zero =>
    intro l
    cases l <;> simp [optCore]
  | succ fuel ih =>
    intro l
    match l with
    | [] => simp [optCore]
    | s :: rest =>
      rw [optCore]
      split
      · exact ih rest
      · refine List.Pairwise.cons ?_ (ih _)
        intro b hb
        have hbf : b ∈ rest.filter (fun t => !(overlapsB s t)) :=
          optCore_sub pref fuel _ b hb
        have := (List.mem_filter.mp hbf).2
        simpa using this

/-- Membership in the optimal span set implies membership in the tier. -/
theorem optimalSpanSet_sub {pref : Pref} {tier : List MSpan} {a : MSpan}
    (h : a ∈ optimalSpanSet pref tier) : a ∈ tier := by
  exact sortSpans_mem.mp (optCore_sub pref (sortSpans tier).length (sortSpans tier) a h)

theorem withoutOverlaps_mem {self other : List MSpan} {a : MSpan} :
    a ∈ withoutOverlaps self other ↔
      a ∈ self ∧ ∀ d ∈ other, overlapsB a d = false := by
  simp only [withoutOverlaps, List.mem_filter, Bool.not_eq_true', List.any_eq_false,
    Bool.not_eq_true]

/-! ## Lemmas about span-tree iteration and the role dictionary -/

theorem mem_listFlat {α : Type} {x : α} {ls : List (List α)} :
    x ∈ listFlat ls ↔ ∃ l ∈ ls, x ∈ l := by
  induction ls with
  | nil => simp [listFlat]
  | cons l ls ih =>
    simp only [listFlat, List.foldr_cons, List.mem_append] at *
    simp [ih]

theorem self_mem_iterSelf (m : MSpan) : m ∈ iterSelf m := by
  cases m <;> simp [iterSelf]

theorem iterList_mem {x : MSpan} {bs : List MSpan} :
    x ∈ iterList bs ↔ ∃ b ∈ bs, x ∈ iterSelf b := by
  induction bs with
  | nil => simp [iterList]
  | cons b bs ih => simp [iterList, ih]

theorem labelOf_some {x : MSpan} {k : String} (h : labelOf x = some k) :
    ∃ bs, x = .node bs (some k) := by
  cases x with
  | leaf s e => simp [labelOf] at h
  | node bs l =>
    simp [labelOf] at h
    exact ⟨bs, by rw [h]⟩

theorem iterSelf_trans :
    ∀ n (m : MSpan), sizeOf m ≤ n →
      ∀ y ∈ iterSelf m, ∀ x ∈ iterSelf y, x ∈ iterSelf m := by
  intro n
  induction n with
  | zero =>
    intro m hm
    cases m <;> simp_all
  | succ n ih =>
    intro m hm y hy x hx
    cases m with
    | leaf s e =>
      simp [iterSelf] at hy
      rw [hy] at hx
      exact hx
    | node bs l =>
      simp only [iterSelf, List.mem_cons] at hy
      rcases hy with hy | hy
      · rw [hy] at hx
        exact hx
      · rcases iterList_mem.mp hy with ⟨b, hb, hyb⟩
        have hsz : sizeOf b ≤ n := by
          have h1 := List.sizeOf_lt_of_mem hb
          have h2 : sizeOf (MSpan.node bs l) = 1 + sizeOf bs + sizeOf l := by
            simp
          omega
        have : x ∈ iterSelf b := ih b hsz y hyb x hx
        exact List.mem_cons_of_mem _ (iterList_mem.mpr ⟨b, hb, this⟩)

theorem gdHas_iff_exists {d : List (String × List MSpan)} {k : String} :
    gdHas d k = true ↔ ∃ e ∈ d, e.1 = k := by
  simp only [gdHas, gdGet, Option.isSome_map']
  rw [List.find?_isSome]
  simp

theorem gdGet_of_gdHas {d : List (String × List MSpan)} {k : String}
    (h : gdHas d k = true) : ∃ sps, gdGet d k = some sps := by
  simp only [gdHas] at h
  exact Option.isSome_iff_exists.mp h

theorem gdGet_entry {d : List (String × List MSpan)} {k : String}
    {sps : List MSpan} (h : gdGet d k = some sps) :
    ∃ e ∈ d, e.1 = k ∧ e.2 = sps := by
  simp only [gdGet, Option.map_eq_some'] at h
  rcases h with ⟨e, he, h2⟩
  have h3 := List.find?_some he
  refine ⟨e, List.mem_of_find?_eq_some he, ?_, h2⟩
  simpa using h3

theorem gdAdd_entry_sound {d : List (String × List MSpan)} {l : String}
    {sp : MSpan} {e' : String × List MSpan} (he : e' ∈ gdAdd d l sp) :
    ∀ t ∈ e'.2, (∃ e ∈ d, e.1 = e'.1 ∧ t ∈ e.2) ∨ (t = sp ∧ e'.1 = l) := by
  intro t ht
  simp only [gdAdd] at he
  split at he
  · rcases List.mem_map.mp he with ⟨e, hed, hmap⟩
    by_cases hkey : e.1 = l
    · rw [if_pos hkey] at hmap
      rw [← hmap] at ht
      simp only at ht
      rcases List.mem_append.mp ht with h | h
      · exact Or.inl ⟨e, hed, by rw [← hmap], h⟩
      · right
        constructor
        · simpa using h
        · rw [← hmap, ← hkey]
    · rw [if_neg hkey] at hmap
      exact Or.inl ⟨e, hed, by rw [← hmap], by rw [← hmap] at ht; exact ht⟩
  · rcases List.mem_append.mp he with h | h
    · exact Or.inl ⟨e', h, rfl, ht⟩
    · simp only [List.mem_singleton] at h
      rw [h] at ht ⊢
      simp only [List.mem_singleton] at ht
      exact Or.inr ⟨ht, rfl⟩

theorem gdAdd_nonempty {d : List (String × List MSpan)} {l : String}
    {sp : MSpan} (hd : ∀ e ∈ d, e.2 ≠ []) :
    ∀ e' ∈ gdAdd d l sp, e'.2 ≠ [] := by
  intro e' he
  simp only [gdAdd] at he
  split at he
  · rcases List.mem_map.mp he with ⟨e, hed, hmap⟩
    by_cases hkey : e.1 = l
    · rw [if_pos hkey] at hmap
      rw [← hmap]
      simp
    · rw [if_neg hkey] at hmap
      rw [← hmap]
      exact hd e hed
  · rcases List.mem_append.mp he with h | h
    · exact hd e' h
    · simp only [List.mem_singleton] at h
      rw [h]
      simp

theorem gdAdd_has_self {d : List (String × List MSpan)} {l : String}
    {sp : MSpan} : gdHas (gdAdd d l sp) l = true := by
  rw [gdHas_iff_exists]
  simp only [gdAdd]
  split
  · rename_i hany
    rcases List.any_eq_true.mp hany with ⟨e, hed, hkey⟩
    refine ⟨(e.1, e.2 ++ [sp]), List.mem_map.mpr ⟨e, hed, ?_⟩, by simpa using hkey⟩
    simp only [decide_eq_true_eq] at hkey
    rw [if_pos hkey]
  · exact ⟨(l, [sp]), by simp⟩

theorem gdAdd_has_mono {d : List (String × List MSpan)} {l k : String}
    {sp : MSpan} (h : gdHas d k = true) : gdHas (gdAdd d l sp) k = true := by
  rw [gdHas_iff_exists] at h ⊢
  rcases h with ⟨e, hed, hkey⟩
  simp only [gdAdd]
  split
  · by_cases hel : e.1 = l
    · exact ⟨(e.1, e.2 ++ [sp]), List.mem_map.mpr ⟨e, hed, by rw [if_pos hel]⟩, hkey⟩
    · exact ⟨e, List.mem_map.mpr ⟨e, hed, by rw [if_neg hel]⟩, hkey⟩
  · exact ⟨e, List.mem_append_left _ hed, hkey⟩

/-- `gdStep` either leaves the dictionary unchanged or records the
labelled group. -/
theorem gdStep_cases (d : List (String × List MSpan)) (x : MSpan) :
    gdStep d x = d ∨ ∃ l, labelOf x = some l ∧ gdStep d x = gdAdd d l x := by
  cases x with
  | leaf s e => exact Or.inl rfl
  | node bs lab =>
    cases lab with
    | none => exact Or.inl rfl
    | some l => exact Or.inr ⟨l, rfl, rfl⟩

theorem gdStep_has_mono {k : String} {d : List (String × List MSpan)}
    {x : MSpan} (h : gdHas d k = true) : gdHas (gdStep d x) k = true := by
  rcases gdStep_cases d x with he | ⟨l, _, he⟩
  · rw [he]; exact h
  · rw [he]; exact gdAdd_has_mono h

theorem foldl_gdStep_has_mono {k : String} :
    ∀ (xs : List MSpan) (d : List (String × List MSpan)),
      gdHas d k = true → gdHas (xs.foldl gdStep d) k = true := by
  intro xs
  induction xs with
  | nil => intro d h; simpa using h
  | cons x xs ih =>
    intro d h
    simp only [List.foldl_cons]
    exact ih _ (gdStep_has_mono h)

theorem foldl_gdStep_complete {k : String} :
    ∀ (xs : List MSpan) (d : List (String × List MSpan)),
      (∃ x ∈ xs, labelOf x = some k) → gdHas (xs.foldl gdStep d) k = true := by
  intro xs
  induction xs with
  | nil => simp
  | cons x xs ih =>
    intro d hx
    rcases hx with ⟨y, hy, hly⟩
    simp only [List.foldl_cons]
    rcases List.mem_cons.mp hy with h | h
    · rw [h] at hly
      rcases labelOf_some hly with ⟨bs, hbs⟩
      refine foldl_gdStep_has_mono xs _ ?_
      have hstep : gdStep d x = gdAdd d k x := by
        rw [hbs]
        rfl
      rw [hstep]
      exact gdAdd_has_self
    · exact ih _ ⟨y, h, hly⟩

theorem gdStep_entry_sound {d : List (String × List MSpan)} {x : MSpan}
    {e' : String × List MSpan} (he : e' ∈ gdStep d x) :
    ∀ t ∈ e'.2,
      (∃ e ∈ d, e.1 = e'.1 ∧ t ∈ e.2) ∨ (t = x ∧ labelOf x = some e'.1) := by
  intro t ht
  rcases gdStep_cases d x with hst | ⟨l, hl, hst⟩
  · rw [hst] at he
    exact Or.inl ⟨e', he, rfl, ht⟩
  · rw [hst] at he
    rcases gdAdd_entry_sound he t ht with h | h
    · exact Or.inl h
    · exact Or.inr ⟨h.1, by rw [hl, h.2]⟩

theorem foldl_gdStep_sound {C : MSpan → Prop} :
    ∀ (xs : List MSpan) (d : List (String × List MSpan)),
      (∀ e ∈ d, ∀ t ∈ e.2, C t ∧ labelOf t = some e.1) →
      (∀ x ∈ xs, C x) →
      ∀ e ∈ xs.foldl gdStep d, ∀ t ∈ e.2, C t ∧ labelOf t = some e.1 := by
  intro xs
  induction xs with
  | nil => intro d hd _ e he; exact hd e he
  | cons x xs ih =>
    intro d hd hxs e he
    simp only [List.foldl_cons] at he
    refine ih _ ?_ (fun y hy => hxs y (List.mem_cons_of_mem x hy)) e he
    intro e' he' t ht
    rcases gdStep_entry_sound he' t ht with h | h
    · rcases h with ⟨e0, he0, hkey, hte0⟩
      have h2 := hd e0 he0 t hte0
      exact ⟨h2.1, by rw [h2.2, hkey]⟩
    · refine ⟨?_, ?_⟩
      · rw [h.1]
        exact hxs x (List.mem_cons_self x xs)
      · rw [h.1]
        exact h.2

theorem foldl_gdStep_nonempty :
    ∀ (xs : List MSpan) (d : List (String × List MSpan)),
      (∀ e ∈ d, e.2 ≠ []) → ∀ e ∈ xs.foldl gdStep d, e.2 ≠ [] := by
  intro xs
  induction xs with
  | nil => intro d hd e he; exact hd e he
  | cons x xs ih =>
    intro d hd e he
    simp only [List.foldl_cons] at he
    refine ih _ ?_ e he
    intro e' he'
    rcases gdStep_cases d x with hst | ⟨l, _, hst⟩
    · rw [hst] at he'
      exact hd e' he'
    · rw [hst] at he'
      exact gdAdd_nonempty hd e' he'

/-- Soundness of the role dictionary: every recorded span is a labelled
group of the tree with the entry's role as its label. -/
theorem groupdict_sound {m : MSpan} {e : String × List MSpan}
    (he : e ∈ groupdict m) :
    ∀ t ∈ e.2, t ∈ iterSelf m ∧ labelOf t = some e.1 := by
  exact foldl_gdStep_sound (iterSelf m) [] (by simp) (fun x hx => hx) e he

/-- Every entry of the role dictionary is nonempty. -/
theorem groupdict_nonempty {m : MSpan} {e : String × List MSpan}
    (he : e ∈ groupdict m) : e.2 ≠ [] := by
  exact foldl_gdStep_nonempty (iterSelf m) [] (by simp) e he

/-- Completeness of the role dictionary: a labelled group of the tree
puts its role into the dictionary. -/
theorem groupdict_has {m sub : MSpan} {k : String} (hsub : sub ∈ iterSelf m)
    (hl : labelOf sub = some k) : gdHas (groupdict m) k = true := by
  exact foldl_gdStep_complete (iterSelf m) [] ⟨sub, hsub, hl⟩

/-- A role present in the dictionary comes from a labelled group of the
tree. -/
theorem groupdict_has_exists {m : MSpan} {k : String}
    (h : gdHas (groupdict m) k = true) :
    ∃ sub ∈ iterSelf m, labelOf sub = some k := by
  rcases gdGet_of_gdHas h with ⟨sps, hget⟩
  rcases gdGet_entry hget with ⟨e, hed, hkey, hsps⟩
  have hne := groupdict_nonempty hed
  match h2 : e.2 with
  | [] => exact absurd h2 hne
  | t :: ts =>
    have := groupdict_sound hed t (by rw [h2]; simp)
    exact ⟨t, this.1, by rw [this.2, hkey]⟩

/-! ## The pipeline invariant -/

theorem treeOk_leaf (parse : String → Option ℚ) (doc : Doc) (s e : Nat) :
    TreeOk parse doc (.leaf s e) := by
  intro sub hsub
  simp only [iterSelf, List.mem_singleton] at hsub
  rw [hsub]
  simp [labelOf]

theorem treeOk_node {parse : String → Option ℚ} {doc : Doc}
    {bs : List MSpan} {l : Option String}
    (hc : l = some "count" →
      isValidCountB parse (spanText doc (.node bs l)) = true)
    (hr : l = some "range" → ∃ c ∈ iterList bs, labelOf c = some "count")
    (hbs : ∀ b ∈ bs, TreeOk parse doc b) :
    TreeOk parse doc (.node bs l) := by
  intro sub hsub
  simp only [iterSelf, List.mem_cons] at hsub
  rcases hsub with hsub | hsub
  · subst hsub
    refine ⟨fun h => hc h, fun h => ?_⟩
    rcases hr h with ⟨c, hcl, hlc⟩
    exact ⟨c, List.mem_cons_of_mem _ hcl, hlc⟩
  · rcases iterList_mem.mp hsub with ⟨b, hb, hsubb⟩
    exact hbs b hb sub hsubb

theorem treeOk_node_other {parse : String → Option ℚ} {doc : Doc}
    {bs : List MSpan} {l : Option String}
    (h1 : l ≠ some "count") (h2 : l ≠ some "range")
    (hbs : ∀ b ∈ bs, TreeOk parse doc b) :
    TreeOk parse doc (.node bs l) :=
  treeOk_node (fun h => absurd h h1) (fun h => absurd h h2) hbs

theorem labelTier_mem {name : Option String} {spans : List MSpan} {x : MSpan} :
    x ∈ labelTier name spans ↔ ∃ s ∈ spans, x = .node [s] name := by
  simp only [labelTier, List.mem_map]
  constructor
  · rintro ⟨s, hs, rfl⟩
    exact ⟨s, hs, rfl⟩
  · rintro ⟨s, hs, rfl⟩
    exact ⟨s, hs, rfl⟩

theorem labelTier_treeOk {parse : String → Option ℚ} {doc : Doc}
    {name : Option String} {spans : List MSpan}
    (h1 : name ≠ some "count") (h2 : name ≠ some "range")
    (hs : ∀ s ∈ spans, TreeOk parse doc s) :
    ∀ x ∈ labelTier name spans, TreeOk parse doc x := by
  intro x hx
  rcases labelTier_mem.mp hx with ⟨s, hsm, rfl⟩
  refine treeOk_node_other h1 h2 ?_
  intro b hb
  simp only [List.mem_singleton] at hb
  rw [hb]
  exact hs s hsm

theorem searchLemmas_treeOk {parse : String → Option ℚ} {doc : Doc}
    {lems : List String} {name : Option String}
    (h1 : name ≠ some "count") (h2 : name ≠ some "range") :
    ∀ x ∈ searchLemmas doc lems name, TreeOk parse doc x := by
  refine labelTier_treeOk h1 h2 ?_
  intro s hs
  rcases List.mem_map.mp hs with ⟨t, _, rfl⟩
  exact treeOk_leaf parse doc t.start t.stop

theorem searchRegexTier_treeOk {parse : String → Option ℚ} {doc : Doc}
    {term : RegexTerm} {name : Option String}
    (h1 : name ≠ some "count") (h2 : name ≠ some "range") :
    ∀ x ∈ searchRegexTier doc term name, TreeOk parse doc x := by
  refine labelTier_treeOk h1 h2 ?_
  intro s hs
  rcases List.mem_map.mp hs with ⟨t, _, rfl⟩
  exact treeOk_leaf parse doc t.start t.stop

theorem follows2_mem {maxDist : Nat} {a b : List MSpan} {x : MSpan} :
    x ∈ follows2 maxDist a b → ∃ p ∈ a, ∃ q ∈ b, x = .node [p, q] none := by
  intro hx
  simp only [follows2] at hx
  rcases mem_listFlat.mp hx with ⟨l, hl, hxl⟩
  rcases List.mem_map.mp hl with ⟨p, hp, rfl⟩
  rcases List.mem_map.mp hxl with ⟨q, hq, rfl⟩
  exact ⟨p, hp, q, (List.mem_filter.mp hq).1, rfl⟩

theorem follows2_treeOk {parse : String → Option ℚ} {doc : Doc}
    {maxDist : Nat} {a b : List MSpan}
    (ha : ∀ x ∈ a, TreeOk parse doc x) (hb : ∀ x ∈ b, TreeOk parse doc x) :
    ∀ x ∈ follows2 maxDist a b, TreeOk parse doc x := by
  intro x hx
  rcases follows2_mem hx with ⟨p, hp, q, hq, rfl⟩
  refine treeOk_node_other (by simp) (by simp) ?_
  intro y hy
  simp only [List.mem_cons, List.mem_singleton, List.not_mem_nil, or_false] at hy
  rcases hy with rfl | rfl
  · exact ha _ hp
  · exact hb _ hq

theorem followsFrom_treeOk {parse : String → Option ℚ} {doc : Doc}
    {maxDist : Nat} :
    ∀ (ts : List (List MSpan)) (acc : List MSpan),
      (∀ x ∈ acc, TreeOk parse doc x) →
      (∀ t ∈ ts, ∀ x ∈ t, TreeOk parse doc x) →
      ∀ x ∈ followsFrom maxDist acc ts, TreeOk parse doc x := by
  intro ts
  induction ts with
  | nil =>
    intro acc hacc _ x hx
    exact hacc x hx
  | cons t ts ih =>
    intro acc hacc hts x hx
    simp only [followsFrom] at hx
    refine ih _ ?_ (fun u hu y hy => hts u (List.mem_cons_of_mem t hu) y hy) x hx
    exact follows2_treeOk hacc (hts t (List.mem_cons_self t ts))

theorem followsAll_treeOk {parse : String → Option ℚ} {doc : Doc}
    {maxDist : Nat} {ts : List (List MSpan)}
    (hts : ∀ t ∈ ts, ∀ x ∈ t, TreeOk parse doc x) :
    ∀ x ∈ followsAll maxDist ts, TreeOk parse doc x := by
  intro x hx
  match ts with
  | [] => simp [followsAll] at hx
  | t :: ts =>
    simp only [followsAll] at hx
    exact followsFrom_treeOk ts t (hts t (List.mem_cons_self t ts))
      (fun u hu y hy => hts u (List.mem_cons_of_mem t hu) y hy) x hx

theorem withNearby_mem {self other : List MSpan} {maxDist : Nat} {x : MSpan} :
    x ∈ withNearby self other maxDist →
      ∃ s ∈ self, ∃ ns, x = .node (s :: ns) none ∧ ∀ o ∈ ns, o ∈ other := by
  intro hx
  simp only [withNearby] at hx
  rcases mem_listFlat.mp hx with ⟨l, hl, hxl⟩
  rcases List.mem_map.mp hl with ⟨s, hs, rfl⟩
  split at hxl
  · simp at hxl
  · simp only [List.mem_singleton] at hxl
    refine ⟨s, hs, _, hxl, ?_⟩
    intro o ho
    exact (List.mem_filter.mp ho).1

theorem withNearby_treeOk {parse : String → Option ℚ} {doc : Doc}
    {self other : List MSpan} {maxDist : Nat}
    (hs : ∀ x ∈ self, TreeOk parse doc x)
    (ho : ∀ x ∈ other, TreeOk parse doc x) :
    ∀ x ∈ withNearby self other maxDist, TreeOk parse doc x := by
  intro x hx
  rcases withNearby_mem hx with ⟨s, hsm, ns, rfl, hns⟩
  refine treeOk_node_other (by simp) (by simp) ?_
  intro b hb
  rcases List.mem_cons.mp hb with rfl | hb
  · exact hs _ hsm
  · exact ho _ (hns b hb)

theorem groupByContaining_mem {tier cands : List MSpan} {ap : Bool}
    {p : MSpan × List MSpan} (hp : p ∈ groupByContaining tier cands ap) :
    p.1 ∈ tier ∧ ∀ x ∈ p.2, x ∈ cands := by
  simp only [groupByContaining] at hp
  rcases List.mem_map.mp hp with ⟨c, hc, rfl⟩
  exact ⟨hc, fun x hx => (List.mem_filter.mp hx).1⟩

/-- Shape of the count candidates: every candidate is a `'count'` group
over one plain span whose text passes `is_valid_count`. -/
theorem candidateCounts_shape {parse : String → Option ℚ} {doc : Doc}
    {x : MSpan} (hx : x ∈ candidateCounts parse doc) :
    ∃ a b, x = .node [.leaf a b] (some "count") ∧
      isValidCountB parse (sliceText doc.text a b) = true := by
  simp only [candidateCounts] at hx
  rcases mem_listFlat.mp hx with ⟨l, hl, hxl⟩
  rcases List.mem_map.mp hl with ⟨ne, _, rfl⟩
  split at hxl
  · split at hxl
    · rename_i hval
      simp only [List.mem_singleton] at hxl
      refine ⟨ne.start, ne.stop, hxl, ?_⟩
      simpa [neText] using hval
    · split at hxl
      · rcases List.mem_append.mp hxl with h | h
        · split at h
          · rename_i hval
            simp only [List.mem_singleton] at h
            exact ⟨_, _, h, hval⟩
          · simp at h
        · split at h
          · rename_i hval
            simp only [List.mem_singleton] at h
            exact ⟨_, _, h, hval⟩
          · simp at h
      · simp at hxl
  · simp at hxl

theorem candidateCounts_treeOk {parse : String → Option ℚ} {doc : Doc} :
    ∀ x ∈ candidateCounts parse doc, TreeOk parse doc x := by
  intro x hx
  rcases candidateCounts_shape hx with ⟨a, b, rfl, hval⟩
  refine treeOk_node (fun _ => ?_) (by simp) ?_
  · exact hval
  · intro y hy
    simp only [List.mem_singleton] at hy
    rw [hy]
    exact treeOk_leaf parse doc a b

/-- Every count candidate's label is `'count'`. -/
theorem candidateCounts_label {parse : String → Option ℚ} {doc : Doc}
    {x : MSpan} (hx : x ∈ candidateCounts parse doc) :
    labelOf x = some "count" := by
  rcases candidateCounts_shape hx with ⟨a, b, rfl, _⟩
  rfl

theorem followsAll_pair (maxDist : Nat) (a b : List MSpan) :
    followsAll maxDist [a, b] = follows2 maxDist a b := rfl

theorem rangesColl_treeOk {parse : String → Option ℚ} {doc : Doc} :
    ∀ x ∈ rangesColl parse doc, TreeOk parse doc x := by
  intro x hx
  simp only [rangesColl] at hx
  refine followsAll_treeOk ?_ x hx
  intro t ht y hy
  rcases List.mem_cons.mp ht with rfl | ht
  · exact candidateCounts_treeOk y hy
  · have ht2 : t = labelTier (some "range")
        (followsAll 100 [searchRegexTier doc .joiner none, candidateCounts parse doc]) := by
      simpa using ht
    rw [ht2] at hy
    rcases labelTier_mem.mp hy with ⟨s, hsm, rfl⟩
    rw [followsAll_pair] at hsm
    rcases follows2_mem hsm with ⟨p, hp, q, hq, rfl⟩
    refine treeOk_node (by simp) ?_ ?_
    · intro _
      refine ⟨q, ?_, candidateCounts_label hq⟩
      rw [iterList_mem]
      refine ⟨.node [p, q] none, by simp, ?_⟩
      simp only [iterSelf]
      refine List.mem_cons_of_mem _ ?_
      rw [iterList_mem]
      exact ⟨q, by simp, self_mem_iterSelf q⟩
    · intro b hb
      simp only [List.mem_singleton] at hb
      rw [hb]
      refine treeOk_node_other (by simp) (by simp) ?_
      intro c hc
      simp only [List.mem_cons, List.mem_singleton, List.not_mem_nil, or_false] at hc
      rcases hc with hc | hc
      · rw [hc]
        rcases labelTier_mem.mp hp with ⟨s0, hs0, rfl⟩
        refine treeOk_node_other (by simp) (by simp) ?_
        intro z hz
        simp only [List.mem_singleton] at hz
        rw [hz]
        rcases List.mem_map.mp hs0 with ⟨tk, _, rfl⟩
        exact treeOk_leaf parse doc tk.start tk.stop
      · rw [hc]
        exact candidateCounts_treeOk q hq

theorem countsTier1_treeOk {parse : String → Option ℚ} {doc : Doc} :
    ∀ x ∈ countsTier1 parse doc, TreeOk parse doc x := by
  intro x hx
  have hm := optimalSpanSet_sub hx
  rcases List.mem_append.mp hm with h | h
  · exact rangesColl_treeOk x h
  · exact candidateCounts_treeOk x h

theorem countsTier2_treeOk {parse : String → Option ℚ} {doc : Doc} :
    ∀ x ∈ countsTier2 parse doc, TreeOk parse doc x := by
  intro x hx
  exact countsTier1_treeOk x (withoutOverlaps_mem.mp hx).1

theorem countsTier3_treeOk {parse : String → Option ℚ} {doc : Doc} :
    ∀ x ∈ countsTier3 parse doc, TreeOk parse doc x := by
  intro x hx
  exact countsTier2_treeOk x (withoutOverlaps_mem.mp hx).1

theorem countsTier4_treeOk {parse : String → Option ℚ} {doc : Doc} :
    ∀ x ∈ countsTier4 parse doc, TreeOk parse doc x := by
  intro x hx
  exact countsTier3_treeOk x (withoutOverlaps_mem.mp hx).1

theorem countDescriptions_fold_treeOk {parse : String → Option ℚ} {doc : Doc} :
    ∀ (gs : List (List String)) (cd : List MSpan),
      (∀ g ∈ gs, g.headD "" ≠ "count" ∧ g.headD "" ≠ "range") →
      (∀ x ∈ cd, TreeOk parse doc x) →
      ∀ x ∈ gs.foldl
        (fun cd g => cd ++ withNearby cd (searchLemmas doc g (some (g.headD ""))) 100)
        cd, TreeOk parse doc x := by
  intro gs
  induction gs with
  | nil => intro cd _ hcd x hx; exact hcd x hx
  | cons g gs ih =>
    intro cd hgs hcd x hx
    simp only [List.foldl_cons] at hx
    refine ih _ (fun u hu => hgs u (List.mem_cons_of_mem g hu)) ?_ x hx
    intro y hy
    rcases List.mem_append.mp hy with h | h
    · exact hcd y h
    · have hg := hgs g (List.mem_cons_self g gs)
      refine withNearby_treeOk hcd ?_ y h
      exact searchLemmas_treeOk (by simpa using hg.1) (by simpa using hg.2)

theorem countDescriptions_treeOk {parse : String → Option ℚ} {doc : Doc} :
    ∀ x ∈ countDescriptions parse doc, TreeOk parse doc x := by
  intro x hx
  simp only [countDescriptions] at hx
  exact countDescriptions_fold_treeOk modifierGroups _ (by decide)
    countsTier4_treeOk x hx

theorem caseDescriptions0_treeOk {parse : String → Option ℚ} {doc : Doc} :
    ∀ x ∈ caseDescriptions0 doc, TreeOk parse doc x := by
  intro x hx
  simp only [caseDescriptions0] at hx
  rcases List.mem_append.mp hx with h | h
  · rcases List.mem_append.mp h with h2 | h2
    · exact labelTier_treeOk (by simp) (by simp)
        (searchLemmas_treeOk (by simp) (by simp)) x h2
    · exact labelTier_treeOk (by simp) (by simp)
        (searchLemmas_treeOk (by simp) (by simp)) x h2
  · exact labelTier_treeOk (by simp) (by simp)
      (searchLemmas_treeOk (by simp) (by simp)) x h

theorem caseStatuses_treeOk {parse : String → Option ℚ} {doc : Doc} :
    ∀ x ∈ caseStatuses doc, TreeOk parse doc x := by
  intro x hx
  simp only [caseStatuses] at hx
  rcases List.mem_append.mp hx with h | h
  · exact searchLemmas_treeOk (by simp) (by simp) x h
  · exact searchLemmas_treeOk (by simp) (by simp) x h

theorem caseDescriptions1_treeOk {parse : String → Option ℚ} {doc : Doc} :
    ∀ x ∈ caseDescriptions1 doc, TreeOk parse doc x := by
  intro x hx
  have hm := optimalSpanSet_sub hx
  rcases List.mem_append.mp hm with h | h
  · refine followsAll_treeOk ?_ x h
    intro t ht y hy
    rcases List.mem_cons.mp ht with rfl | ht
    · exact caseStatuses_treeOk y hy
    · have : t = caseDescriptions0 doc := by simpa using ht
      rw [this] at hy
      exact caseDescriptions0_treeOk y hy
  · exact caseDescriptions0_treeOk x h

theorem personDescriptions_treeOk {parse : String → Option ℚ} {doc : Doc} :
    ∀ x ∈ personDescriptions doc, TreeOk parse doc x := by
  intro x hx
  exact searchLemmas_treeOk (by simp) (by simp) x hx

theorem caseDescriptions2_treeOk {parse : String → Option ℚ} {doc : Doc} :
    ∀ x ∈ caseDescriptions2 doc, TreeOk parse doc x := by
  intro x hx
  simp only [caseDescriptions2] at hx
  rcases List.mem_append.mp hx with h | h
  · rcases List.mem_append.mp h with h2 | h2
    · exact caseDescriptions1_treeOk x h2
    · exact personDescriptions_treeOk x h2
  · exact withNearby_treeOk personDescriptions_treeOk caseDescriptions1_treeOk x h

theorem caseDescWithCounts_treeOk {parse : String → Option ℚ} {doc : Doc} :
    ∀ x ∈ caseDescWithCounts parse doc, TreeOk parse doc x := by
  intro x hx
  exact withNearby_treeOk caseDescriptions2_treeOk countDescriptions_treeOk x hx

theorem singularCaseDescriptions_treeOk {parse : String → Option ℚ} {doc : Doc} :
    ∀ x ∈ singularCaseDescriptions doc, TreeOk parse doc x := by
  intro x hx
  simp only [singularCaseDescriptions] at hx
  rcases mem_listFlat.mp hx with ⟨l, hl, hxl⟩
  rcases List.mem_map.mp hl with ⟨p, hp, rfl⟩
  split at hxl
  · simp at hxl
  · simp only [List.mem_singleton] at hxl
    rw [hxl]
    exact caseDescriptions2_treeOk p.1 (groupByContaining_mem hp).1

theorem allPotential_treeOk {parse : String → Option ℚ} {doc : Doc} :
    ∀ x ∈ allPotential parse doc, TreeOk parse doc x := by
  intro x hx
  simp only [allPotential] at hx
  rcases List.mem_append.mp hx with h | h
  · rcases List.mem_append.mp h with h2 | h2
    · rcases List.mem_append.mp h2 with h3 | h3
      · exact caseDescWithCounts_treeOk x h3
      · refine followsAll_treeOk ?_ x h3
        intro t ht y hy
        rcases List.mem_cons.mp ht with rfl | ht
        · exact searchRegexTier_treeOk (by simp) (by simp) y hy
        · have : t = countsTier4 parse doc := by simpa using ht
          rw [this] at hy
          exact countsTier4_treeOk y hy
    · exact countDescriptions_treeOk x h2
  · exact singularCaseDescriptions_treeOk x h

theorem singleSentenceCounts_treeOk {parse : String → Option ℚ} {doc : Doc} :
    ∀ x ∈ singleSentenceCounts parse doc, TreeOk parse doc x := by
  intro x hx
  simp only [singleSentenceCounts] at hx
  rcases mem_listFlat.mp hx with ⟨l, hl, hxl⟩
  rcases List.mem_map.mp hl with ⟨p, hp, rfl⟩
  exact allPotential_treeOk x ((groupByContaining_mem hp).2 x hxl)

/-- Every match selected for emission satisfies the pipeline
invariant. -/
theorem annotatedCounts_treeOk {parse : String → Option ℚ} {doc : Doc} :
    ∀ x ∈ annotatedCounts parse doc, TreeOk parse doc x := by
  intro x hx
  exact singleSentenceCounts_treeOk x (optimalSpanSet_sub hx)

/-! ## Lemmas about validation and emission -/

/-- A string passing `is_valid_count` parses to an integral value of at
most one billion, and does not begin with `'0'`. -/
theorem isValidCountB_spec {parse : String → Option ℚ} {s : String}
    (h : isValidCountB parse s = true) :
    ∃ q, parse s = some q ∧ q.den = 1 ∧ q ≤ 1000000000 ∧
      ∀ c cs, s.toList = c :: cs → c ≠ '0' := by
  unfold isValidCountB at h
  cases hrun : isValidCountRun parse s with
  | error e =>
    rw [hrun] at h
    simp at h
  | ok r =>
    rw [hrun] at h
    simp only at h
    unfold isValidCountRun at hrun
    cases hls : s.toList with
    | nil =>
      rw [hls] at hrun
      simp at hrun
    | cons c cs =>
      rw [hls] at hrun
      simp only at hrun
      by_cases hc : c = '0'
      · rw [if_pos hc] at hrun
        injection hrun with h2
        rw [← h2] at h
        simp at h
      · rw [if_neg hc] at hrun
        cases hp : parse s with
        | none =>
          rw [hp] at hrun
          injection hrun with h2
          rw [← h2] at h
          simp at h
        | some q =>
          rw [hp] at hrun
          simp only at hrun
          by_cases hden : q.den ≠ 1
          · rw [if_pos hden] at hrun
            injection hrun with h2
            rw [← h2] at h
            simp at h
          · rw [if_neg hden] at hrun
            by_cases hgt : q > 1000000000
            · rw [if_pos hgt] at hrun
              injection hrun with h2
              rw [← h2] at h
              simp at h
            · refine ⟨q, rfl, by simpa using hden, by simpa using hgt, ?_⟩
              intro c' cs' hls'
              cases hls'
              exact hc

theorem mem_insertStr {x a : String} {l : List String} :
    a ∈ insertStr x l ↔ a = x ∨ a ∈ l := by
  induction l with
  | nil => simp [insertStr]
  | cons y ys ih =>
    simp only [insertStr]
    split
    · simp
    · simp only [List.mem_cons, ih]
      tauto

theorem mem_sortStrs {a : String} {l : List String} :
    a ∈ sortStrs l ↔ a ∈ l := by
  induction l with
  | nil => simp [sortStrs]
  | cons x xs ih => simp [sortStrs, mem_insertStr, ih]

/-- The attribute-inference rule at the level of the matched attribute
set: death or hospitalization forces case. -/
theorem matchedAttrs_death_case {d : List (String × List MSpan)}
    (h : "death" ∈ matchedAttrs d ∨ "hospitalization" ∈ matchedAttrs d) :
    "case" ∈ matchedAttrs d := by
  unfold matchedAttrs at h ⊢
  by_cases hdh : (gdHas d "death" || gdHas d "hospitalization") = true
  · rw [if_pos hdh] at h ⊢
    split
    · rename_i hcontains
      simpa using hcontains
    · exact List.mem_cons_self _ _
  · rw [if_neg hdh] at h ⊢
    exfalso
    simp only [Bool.or_eq_true, not_or] at hdh
    rcases h with h | h
    · exact hdh.1 (List.mem_filter.mp h).2
    · exact hdh.2 (List.mem_filter.mp h).2

/-- The first span of a role's entry in the group dictionary is a group
of the tree with that role. -/
theorem gdGet_first {m : MSpan} {k : String} {c : MSpan} {rest : List MSpan}
    (h : gdGet (groupdict m) k = some (c :: rest)) :
    c ∈ iterSelf m ∧ labelOf c = some k := by
  rcases gdGet_entry h with ⟨e, hed, hkey, hsnd⟩
  have := groupdict_sound hed c (by rw [hsnd]; simp)
  exact ⟨this.1, by rw [this.2, hkey]⟩

/-- A role known to be in the group dictionary has a first span. -/
theorem gdHas_first {m : MSpan} {k : String}
    (h : gdHas (groupdict m) k = true) :
    ∃ c rest, gdGet (groupdict m) k = some (c :: rest) := by
  rcases gdGet_of_gdHas h with ⟨sps, hget⟩
  rcases gdGet_entry hget with ⟨e, hed, _, hsnd⟩
  have hne := groupdict_nonempty hed
  match h2 : e.2 with
  | [] => exact absurd h2 hne
  | c :: rest => exact ⟨c, rest, by rw [hget, ← hsnd, h2]⟩

/-- Under the pipeline invariant the count value of a match is always
computed without error, and is an integral rational of at most one
billion. -/
theorem matchCount_ok {parse : String → Option ℚ} {doc : Doc} {m : MSpan}
    (hm : TreeOk parse doc m) :
    ∃ q, matchCount parse doc (groupdict m) = .ok (some q) ∧
      q.den = 1 ∧ q ≤ 1000000000 := by
  unfold matchCount
  by_cases hc : gdHas (groupdict m) "count" = true
  · rw [if_pos hc]
    rcases gdHas_first hc with ⟨c, rest, hget⟩
    rcases gdGet_first hget with ⟨hcm, hcl⟩
    have hval := (hm c hcm).1 hcl
    rcases isValidCountB_spec hval with ⟨q, hq, hden, hle, _⟩
    refine ⟨q, ?_, hden, hle⟩
    simp only [hget, hq]
  · rw [if_neg hc]
    exact ⟨1, rfl, rfl, by norm_num⟩

/-- Under the pipeline invariant, emission of one match succeeds and
every emitted span has an integral count of at most one billion. -/
theorem emitOne_ok {parse : String → Option ℚ} {doc : Doc} {m : MSpan}
    (hm : TreeOk parse doc m) :
    ∃ out, emitOne parse doc m = .ok out ∧
      ∀ cs ∈ out, ∃ q, cs.metadata.count = some q ∧
        q.den = 1 ∧ q ≤ 1000000000 := by
  rcases matchCount_ok hm with ⟨q1, hcnt, hq1den, hq1le⟩
  unfold emitOne
  by_cases hr : gdHas (groupdict m) "range" = true
  · rw [if_pos hr]
    rcases gdHas_first hr with ⟨rg, rrest, hrget⟩
    rcases gdGet_first hrget with ⟨hrgm, hrgl⟩
    rcases (hm rg hrgm).2 hrgl with ⟨c, hcrg, hcl⟩
    have hhasc : gdHas (groupdict rg) "count" = true := groupdict_has hcrg hcl
    rcases gdHas_first hhasc with ⟨c0, crest, hcget⟩
    rcases gdGet_first hcget with ⟨hc0rg, hc0l⟩
    have hc0m : c0 ∈ iterSelf m :=
      iterSelf_trans (sizeOf m) m le_rfl rg hrgm c0 hc0rg
    have hval := (hm c0 hc0m).1 hc0l
    rcases isValidCountB_spec hval with ⟨q2, hq2, hq2den, hq2le, _⟩
    simp only [hrget, hcget, hcnt]
    refine ⟨_, rfl, ?_⟩
    intro cs hcs
    rcases List.mem_cons.mp hcs with rfl | hcs
    · exact ⟨q1, rfl, hq1den, hq1le⟩
    · simp only [List.mem_singleton] at hcs
      rw [hcs]
      exact ⟨q2, by simpa [mkCountSpan] using hq2, hq2den, hq2le⟩
  · rw [if_neg hr, hcnt]
    refine ⟨_, rfl, ?_⟩
    intro cs hcs
    simp only [List.mem_singleton] at hcs
    rw [hcs]
    exact ⟨q1, rfl, hq1den, hq1le⟩

/-- Under the pipeline invariant a match with no `'count'` role emits
exactly one span, with count 1 (count_annotator.py lines 258-263). -/
theorem emitOne_no_count {parse : String → Option ℚ} {doc : Doc} {m : MSpan}
    (hm : TreeOk parse doc m)
    (hnc : gdHas (groupdict m) "count" = false) :
    emitOne parse doc m =
      .ok [mkCountSpan (spanStart m) (spanStop m) doc.text (spanText doc m)
            ⟨spanText doc m, sortStrs (matchedAttrs (groupdict m)),
             some 1⟩] := by
  have hr : gdHas (groupdict m) "range" = false := by
    by_contra hr
    rw [Bool.not_eq_false] at hr
    rcases groupdict_has_exists hr with ⟨rg, hrgm, hrgl⟩
    rcases (hm rg hrgm).2 hrgl with ⟨c, hcrg, hcl⟩
    have hcm : c ∈ iterSelf m :=
      iterSelf_trans (sizeOf m) m le_rfl rg hrgm c hcrg
    have := groupdict_has hcm hcl
    rw [hnc] at this
    exact Bool.false_ne_true this
  unfold emitOne
  rw [if_neg (by rw [hr]; simp)]
  unfold matchCount
  rw [if_neg (by rw [hnc]; simp)]

/-- The emission loop over all selected matches, elementwise. -/
theorem emitAll_ok {parse : String → Option ℚ} {doc : Doc} :
    ∀ (ms : List MSpan), (∀ m ∈ ms, TreeOk parse doc m) →
      ∃ out, emitAll parse doc ms = .ok out ∧
        ∀ cs ∈ out, ∃ q, cs.metadata.count = some q ∧
          q.den = 1 ∧ q ≤ 1000000000 := by
  intro ms
  induction ms with
  | nil => exact fun _ => ⟨[], rfl, by simp⟩
  | cons m ms ih =>
    intro hms
    rcases emitOne_ok (hms m (List.mem_cons_self m ms)) with ⟨a, ha, haP⟩
    rcases ih (fun u hu => hms u (List.mem_cons_of_mem m hu)) with ⟨b, hb, hbP⟩
    refine ⟨a ++ b, ?_, ?_⟩
    · simp only [emitAll, ha, hb]
    · intro cs hcs
      rcases List.mem_append.mp hcs with h | h
      · exact haP cs h
      · exact hbP cs h

/-- Every emitted span of the emission loop comes from the emission of
one of the matches. -/
theorem emitAll_elements {parse : String → Option ℚ} {doc : Doc} :
    ∀ (ms : List MSpan) (out : List CountSpan),
      emitAll parse doc ms = .ok out → ∀ cs ∈ out,
        ∃ m ∈ ms, ∃ a, emitOne parse doc m = .ok a ∧ cs ∈ a := by
  intro ms
  induction ms with
  | nil =>
    intro out hout cs hcs
    simp only [emitAll] at hout
    injection hout with h
    rw [← h] at hcs
    simp at hcs
  | cons m ms ih =>
    intro out hout cs hcs
    simp only [emitAll] at hout
    cases ha : emitOne parse doc m with
    | error e => rw [ha] at hout; simp at hout
    | ok a =>
      rw [ha] at hout
      cases hb : emitAll parse doc ms with
      | error e => rw [hb] at hout; simp at hout
      | ok b =>
        rw [hb] at hout
        simp only at hout
        injection hout with h
        rw [← h] at hcs
        rcases List.mem_append.mp hcs with hcs | hcs
        · exact ⟨m, List.mem_cons_self m ms, a, ha, hcs⟩
        · rcases ih b hb cs hcs with ⟨m', hm', a', ha', hcs'⟩
          exact ⟨m', List.mem_cons_of_mem m hm', a', ha', hcs'⟩

/-- The attributes of every emitted span are the sorted matched
attributes, possibly with a `'min'` or `'max'` tag appended before
sorting. -/
theorem emitOne_attrs {parse : String → Option ℚ} {doc : Doc} {m : MSpan}
    {a : List CountSpan} (ha : emitOne parse doc m = .ok a) :
    ∀ cs ∈ a, ∃ extra, (extra = [] ∨ extra = ["min"] ∨ extra = ["max"]) ∧
      cs.metadata.attributes = sortStrs (matchedAttrs (groupdict m) ++ extra) := by
  intro cs hcs
  unfold emitOne at ha
  split at ha
  · cases hrg : gdGet (groupdict m) "range" with
    | none => rw [hrg] at ha; simp at ha
    | some sps =>
      rw [hrg] at ha
      match sps with
      | [] => simp at ha
      | rg :: rrest =>
        simp only at ha
        cases hcg : gdGet (groupdict rg) "count" with
        | none => rw [hcg] at ha; simp at ha
        | some sps2 =>
          rw [hcg] at ha
          match sps2 with
          | [] => simp at ha
          | c0 :: crest =>
            simp only at ha
            cases hmc : matchCount parse doc (groupdict m) with
            | error e => rw [hmc] at ha; simp at ha
            | ok cnt =>
              rw [hmc] at ha
              simp only at ha
              injection ha with h
              rw [← h] at hcs
              rcases List.mem_cons.mp hcs with rfl | hcs
              · exact ⟨["min"], by simp, rfl⟩
              · simp only [List.mem_singleton] at hcs
                rw [hcs]
                exact ⟨["max"], by simp, rfl⟩
  · cases hmc : matchCount parse doc (groupdict m) with
    | error e => rw [hmc] at ha; simp at ha
    | ok cnt =>
      rw [hmc] at ha
      simp only at ha
      injection ha with h
      rw [← h] at hcs
      simp only [List.mem_singleton] at hcs
      rw [hcs]
      exact ⟨[], by simp, by simp [mkCountSpan]⟩

/-- The emission of any selected match is part of the loop's output. -/
theorem emitAll_piece {parse : String → Option ℚ} {doc : Doc} :
    ∀ (ms : List MSpan) (out : List CountSpan) (m : MSpan),
      emitAll parse doc ms = .ok out → m ∈ ms →
        ∃ a, emitOne parse doc m = .ok a ∧ ∀ x ∈ a, x ∈ out := by
  intro ms
  induction ms with
  | nil =>
    intro out m _ hm
    simp at hm
  | cons m0 ms ih =>
    intro out m hout hm
    simp only [emitAll] at hout
    cases ha : emitOne parse doc m0 with
    | error e => rw [ha] at hout; simp at hout
    | ok a =>
      rw [ha] at hout
      cases hb : emitAll parse doc ms with
      | error e => rw [hb] at hout; simp at hout
      | ok b =>
        rw [hb] at hout
        simp only at hout
        injection hout with h
        rcases List.mem_cons.mp hm with rfl | hm
        · exact ⟨a, ha, fun x hx => by rw [← h]; exact List.mem_append_left b hx⟩
        · rcases ih b m hb hm with ⟨a', ha', hsub⟩
          exact ⟨a', ha', fun x hx => by
            rw [← h]; exact List.mem_append_right a (hsub x hx)⟩

/-! ## Claims -/

/-- C1 (amended): for every input Tier and either preference, the
output of `optimal_span_set` contains no two overlapping Spans.  (The
final `'counts'` tier of `annotate`, however, can contain overlapping
spans: see the counterexample, where the selected range match emits
both the full match span tagged `min` and its `'range'` sub-span
tagged `max`, which overlap.) -/
theorem optimal_span_set_no_overlap (pref : Pref) (tier : List MSpan) :
    (optimalSpanSet pref tier).Pairwise (fun a b => overlapsB a b = false) :=
  optCore_pairwise pref (sortSpans tier).length (sortSpans tier)

/-- C1 (counterexample): on the spec's own range scenario
`"between 5 and 10 cases"`, the final `'counts'` tier contains two
overlapping spans — the full range match `(8, 22)` tagged `min` and its
`'range'` sub-span `(10, 16)` tagged `max`. -/
theorem final_counts_overlap_counterexample :
    annotateCounts digitsParse docRange =
      .ok [⟨8, 22, "between 5 and 10 cases", "5 and 10 cases",
             ⟨"5 and 10 cases", ["case", "min"], some 5⟩⟩,
           ⟨10, 16, "between 5 and 10 cases", "and 10",
             ⟨"10", ["case", "max"], some 10⟩⟩] ∧
    overlapsCS
      ⟨8, 22, "between 5 and 10 cases", "5 and 10 cases",
        ⟨"5 and 10 cases", ["case", "min"], some 5⟩⟩
      ⟨10, 16, "between 5 and 10 cases", "and 10",
        ⟨"10", ["case", "max"], some 10⟩⟩ = true :=
  ⟨rfl, rfl⟩

/-- C2 (amended): a count candidate that overlaps a recognized date
span is dropped entirely from the candidate counts tier (line 130), not
truncated: the post-filter tier holds exactly the unchanged candidate
spans that overlap no date span.  (The final `'counts'` tier, however,
can contain composite spans stretching over a date: see the
counterexample.) -/
theorem count_candidates_date_overlap_dropped (parse : String → Option ℚ)
    (doc : Doc) (s : MSpan) :
    s ∈ countsTier4 parse doc ↔
      s ∈ countsTier3 parse doc ∧
        ∀ d ∈ dateSpans doc, overlapsB s d = false := by
  unfold countsTier4
  exact withoutOverlaps_mem

/-- C2 (counterexample): in `"cases in March: 3"` with date span
"March" = `(9, 14)`, the final `'counts'` tier contains the composite
span `(0, 17)` (case description "cases" joined with its nearby count
"3"), which overlaps the date span. -/
theorem final_counts_date_overlap_counterexample :
    annotateCounts digitsParse docDateBetween =
      .ok [⟨0, 17, "cases in March: 3", "cases in March: 3",
             ⟨"cases in March: 3", ["case"], some 3⟩⟩] ∧
    (9, 14) ∈ docDateBetween.dates ∧
    csOverlapsSpan
      ⟨0, 17, "cases in March: 3", "cases in March: 3",
        ⟨"cases in March: 3", ["case"], some 3⟩⟩ (9, 14) = true :=
  ⟨rfl, by simp [docDateBetween], rfl⟩

/-- C3: a QUANTITY/CARDINAL entity whose text fails validation and
contains exactly one joiner contributes the valid sides of the joiner
as count candidates; on the range scenario `"between 5 and 10 cases"`
the result holds two CountSpans — count 5 tagged `min` and count 10
tagged `max`, both carrying the surrounding `case` attribute. -/
theorem range_joiner_split_min_max :
    (∀ (parse : String → Option ℚ) (doc : Doc) (ne : NE) (a b : Nat),
      ne ∈ doc.nes → (ne.label = "QUANTITY" ∨ ne.label = "CARDINAL") →
      isValidCountB parse (neText doc ne) = false →
      findJoiners (neText doc ne).toList 0 = [(a, b)] →
      (isValidCountB parse (sliceText doc.text ne.start (ne.start + a)) = true →
        MSpan.node [.leaf ne.start (ne.start + a)] (some "count") ∈
          candidateCounts parse doc) ∧
      (isValidCountB parse (sliceText doc.text (ne.start + b) ne.stop) = true →
        MSpan.node [.leaf (ne.start + b) ne.stop] (some "count") ∈
          candidateCounts parse doc)) ∧
    annotateCounts digitsParse docRange =
      .ok [⟨8, 22, "between 5 and 10 cases", "5 and 10 cases",
             ⟨"5 and 10 cases", ["case", "min"], some 5⟩⟩,
           ⟨10, 16, "between 5 and 10 cases", "and 10",
             ⟨"10", ["case", "max"], some 10⟩⟩] := by
  constructor
  · intro parse doc ne a b hne hlab hval hjoin
    have hcond :
        (decide (ne.label = "QUANTITY") || decide (ne.label = "CARDINAL")) = true := by
      rcases hlab with h | h <;> simp [h]
    constructor
    · intro hv
      refine mem_listFlat.mpr ⟨_, List.mem_map.mpr ⟨ne, hne, rfl⟩, ?_⟩
      rw [if_pos hcond, if_neg (by rw [hval]; simp), hjoin]
      simp only
      rw [if_pos hv]
      exact List.mem_append_left _ (List.mem_singleton.mpr rfl)
    · intro hv
      refine mem_listFlat.mpr ⟨_, List.mem_map.mpr ⟨ne, hne, rfl⟩, ?_⟩
      rw [if_pos hcond, if_neg (by rw [hval]; simp), hjoin]
      simp only
      refine List.mem_append_right _ ?_
      rw [if_pos hv]
      exact List.mem_singleton.mpr rfl
  · rfl

/-- C3 (witness): the joiner-split candidates of the range scenario —
the entity "5 and 10" fails validation, has exactly one joiner, and
both sides become count candidates. -/
theorem range_joiner_split_min_max_witness :
    MSpan.node [.leaf 8 9] (some "count") ∈
      candidateCounts digitsParse docRange ∧
    MSpan.node [.leaf 14 16] (some "count") ∈
      candidateCounts digitsParse docRange := by
  have h := range_joiner_split_min_max.1 digitsParse docRange ⟨8, 16, "CARDINAL"⟩
    1 6 (List.mem_singleton.mpr rfl) (Or.inr rfl) rfl rfl
  exact ⟨h.1 rfl, h.2 rfl⟩

/-- C4: every CountSpan emitted by `annotate` whose attributes contain
`death` or `hospitalization` also carries `case`. -/
theorem death_implies_case_attribute (parse : String → Option ℚ) (doc : Doc)
    (res : List CountSpan) (cs : CountSpan)
    (hres : annotateCounts parse doc = .ok res) (hcs : cs ∈ res)
    (h : "death" ∈ cs.metadata.attributes ∨
      "hospitalization" ∈ cs.metadata.attributes) :
    "case" ∈ cs.metadata.attributes := by
  have hres' : emitAll parse doc (annotatedCounts parse doc) = .ok res := hres
  rcases emitAll_elements _ res hres' cs hcs with ⟨m, _, a, ha, hcsa⟩
  rcases emitOne_attrs ha cs hcsa with ⟨extra, hextra, hattrs⟩
  rw [hattrs] at h ⊢
  simp only [mem_sortStrs] at h ⊢
  have hmatched : "death" ∈ matchedAttrs (groupdict m) ∨
      "hospitalization" ∈ matchedAttrs (groupdict m) := by
    rcases h with h | h <;> rcases List.mem_append.mp h with h2 | h2
    · exact Or.inl h2
    · exfalso
      rcases hextra with rfl | rfl | rfl <;> simp at h2
    · exact Or.inr h2
    · exfalso
      rcases hextra with rfl | rfl | rfl <;> simp at h2
  exact List.mem_append_left _ (matchedAttrs_death_case hmatched)

/-- C4 (witness): on `"3 deaths"`, the emitted span's attributes hold
`death`, and by the attribute-inference rule also `case`. -/
theorem death_implies_case_attribute_witness :
    "case" ∈
      (⟨0, 8, "3 deaths", "3 deaths",
        ⟨"3 deaths", ["case", "death"], some 3⟩⟩ : CountSpan).metadata.attributes := by
  refine death_implies_case_attribute digitsParse docDeaths
    [⟨0, 8, "3 deaths", "3 deaths", ⟨"3 deaths", ["case", "death"], some 3⟩⟩]
    ⟨0, 8, "3 deaths", "3 deaths", ⟨"3 deaths", ["case", "death"], some 3⟩⟩
    rfl (List.mem_singleton.mpr rfl) (Or.inl ?_)
  simp

/-- C5 (amended): a nonempty count-candidate string that cannot be
parsed makes `is_valid_count` return `False` with no exception, so the
candidate is dropped; the failure is logged exactly when the string
does not begin with `'0'` (a leading-`'0'` string is rejected by the
leading-zero check before the parse result is examined). -/
theorem unparsable_count_dropped (parse : String → Option ℚ) (s : String)
    (c : Char) (cs : List Char) (hls : s.toList = c :: cs)
    (hp : parse s = none) :
    isValidCountRun parse s =
      if c = '0' then .ok ⟨false, false⟩ else .ok ⟨false, true⟩ := by
  unfold isValidCountRun
  rw [hls]
  simp only
  by_cases hc : c = '0'
  · rw [if_pos hc, if_pos hc]
  · rw [if_neg hc, if_neg hc, hp]

/-- C5 (witness): the unparsable candidate `"x"` is dropped and
logged. -/
theorem unparsable_count_dropped_witness :
    isValidCountRun digitsParse "x" = .ok ⟨false, true⟩ := by
  have h := unparsable_count_dropped digitsParse "x" 'x' [] rfl rfl
  simpa using h

/-- C5 (counterexample): the unparsable candidate `"0 to 5"` is dropped
but the failure is not logged — the leading-zero check fires before the
parse result is examined, refuting "is logged" for every unparsable
candidate. -/
theorem unparsable_zero_prefix_not_logged :
    digitsParse "0 to 5" = none ∧
    isValidCountRun digitsParse "0 to 5" = .ok ⟨false, false⟩ :=
  ⟨rfl, rfl⟩

/-- C6: every span of the `'counts'` tier serializes to a dictionary
with keys `start`, `end`, `text`, `label`, `attributes` and `count`,
where `attributes` is a list of strings and `count` an integral
rational (of at most one billion). -/
theorem counts_to_dict_contract (parse : String → Option ℚ) (doc : Doc)
    (res : List CountSpan) (cs : CountSpan)
    (hres : annotateCounts parse doc = .ok res) (hcs : cs ∈ res) :
    dictGet (countSpanToDict cs) "start" = some (.num cs.start) ∧
    dictGet (countSpanToDict cs) "end" = some (.num cs.stop) ∧
    dictGet (countSpanToDict cs) "text" = some (.str cs.metadata.text) ∧
    dictGet (countSpanToDict cs) "label" = some (.str cs.label) ∧
    dictGet (countSpanToDict cs) "attributes" =
      some (.strs cs.metadata.attributes) ∧
    ∃ q : ℚ, dictGet (countSpanToDict cs) "count" = some (.num q) ∧
      q.den = 1 ∧ q ≤ 1000000000 := by
  rcases emitAll_ok (annotatedCounts parse doc) annotatedCounts_treeOk with
    ⟨out, hout, hP⟩
  have hres' : emitAll parse doc (annotatedCounts parse doc) = .ok res := hres
  rw [hout] at hres'
  injection hres' with heq
  rw [heq] at hP
  rcases hP cs hcs with ⟨q, hq, hden, hle⟩
  refine ⟨rfl, rfl, rfl, rfl, rfl, q, ?_, hden, hle⟩
  calc dictGet (countSpanToDict cs) "count"
      = some (countDVal cs.metadata.count) := rfl
    _ = some (.num q) := by rw [hq]; rfl

/-- C6 (witness): the serialized dictionary of the span emitted for
`"3 deaths"`. -/
theorem counts_to_dict_contract_witness :
    dictGet (countSpanToDict
      ⟨0, 8, "3 deaths", "3 deaths", ⟨"3 deaths", ["case", "death"], some 3⟩⟩)
      "count" = some (.num 3) := by
  rcases counts_to_dict_contract digitsParse docDeaths
      [⟨0, 8, "3 deaths", "3 deaths", ⟨"3 deaths", ["case", "death"], some 3⟩⟩]
      ⟨0, 8, "3 deaths", "3 deaths", ⟨"3 deaths", ["case", "death"], some 3⟩⟩
      rfl (List.mem_singleton.mpr rfl) with ⟨_, _, _, _, _, q, hq, _, _⟩
  have h3 : dictGet (countSpanToDict
      (⟨0, 8, "3 deaths", "3 deaths",
        ⟨"3 deaths", ["case", "death"], some 3⟩⟩ : CountSpan))
      "count" = some (.num 3) := rfl
  rw [hq] at h3
  rw [hq]
  exact h3

/-- C7 (amended): `AnnoSpan` construction (modelled from the spec)
rejects a malformed interval with `start > end`; `CountSpan.__init__`
itself performs no validation — it copies its constituent span's
offsets verbatim. -/
theorem span_constructor_validation :
    (∀ s e docLen : Nat, e < s → mkAnnoSpan s e docLen = none) ∧
    (∀ (st sp : Nat) (d t : String) (meta : CountMeta),
      (mkCountSpan st sp d t meta).start = st ∧
      (mkCountSpan st sp d t meta).stop = sp) := by
  constructor
  · intro s e docLen h
    unfold mkAnnoSpan
    rw [if_neg]
    omega
  · intro st sp d t meta
    exact ⟨rfl, rfl⟩

/-- C7 (witness): the interval `(5, 3)` is rejected by `AnnoSpan`
construction, while `CountSpan` construction copies it unchanged. -/
theorem span_constructor_validation_witness :
    mkAnnoSpan 5 3 10 = none ∧
    (mkCountSpan 5 3 "abcdef" "bcd" ⟨"bcd", [], some 1⟩).start = 5 :=
  ⟨span_constructor_validation.1 5 3 10 (by norm_num),
   (span_constructor_validation.2 5 3 "abcdef" "bcd" ⟨"bcd", [], some 1⟩).1⟩

/-- C7 (counterexample): `CountSpan` construction does not reject a
constituent span with `start > end` — the malformed interval `(5, 3)`
is copied into the constructed object, not rejected. -/
theorem count_span_no_validation_counterexample :
    (mkCountSpan 5 3 "abcdef" "bcd" ⟨"bcd", [], some 1⟩).start = 5 ∧
    (mkCountSpan 5 3 "abcdef" "bcd" ⟨"bcd", [], some 1⟩).stop = 3 ∧
    3 < 5 :=
  ⟨rfl, rfl, by norm_num⟩

/-- C8: for every nonempty string, `is_valid_count` returns `True`
exactly when the string does not begin with `'0'` and parses to an
integral value of at most 1,000,000,000. -/
theorem is_valid_count_characterization (parse : String → Option ℚ)
    (s : String) (c : Char) (cs : List Char) (hls : s.toList = c :: cs) :
    isValidCountB parse s = true ↔
      (c ≠ '0' ∧ ∃ q, parse s = some q ∧ q.den = 1 ∧ q ≤ 1000000000) := by
  constructor
  · intro h
    rcases isValidCountB_spec h with ⟨q, hq, hden, hle, hzero⟩
    exact ⟨hzero c cs hls, q, hq, hden, hle⟩
  · rintro ⟨hc, q, hq, hden, hle⟩
    unfold isValidCountB isValidCountRun
    rw [hls]
    simp only
    rw [if_neg hc, hq]
    simp only
    rw [if_neg (by simp [hden]), if_neg (by simp; exact hle)]

/-- C8 (witness): `"7"` is a valid count. -/
theorem is_valid_count_characterization_witness :
    isValidCountB digitsParse "7" = true := by
  refine (is_valid_count_characterization digitsParse "7" '7' [] rfl).mpr
    ⟨by decide, 7, by decide, by decide, by decide⟩

/-- C9: a selected match whose group dictionary contains no `'count'`
role emits exactly one CountSpan, with count 1, and that span is part
of the returned `'counts'` tier. -/
theorem no_count_role_emits_count_one (parse : String → Option ℚ) (doc : Doc)
    (m : MSpan) (res : List CountSpan)
    (hm : m ∈ annotatedCounts parse doc)
    (hres : annotateCounts parse doc = .ok res)
    (hnc : gdHas (groupdict m) "count" = false) :
    ∃ cs, emitOne parse doc m = .ok [cs] ∧
      cs.metadata.count = some 1 ∧ cs ∈ res := by
  have hone := emitOne_no_count (annotatedCounts_treeOk m hm) hnc
  have hres' : emitAll parse doc (annotatedCounts parse doc) = .ok res := hres
  rcases emitAll_piece _ res m hres' hm with ⟨a, ha, hsub⟩
  rw [hone] at ha
  injection ha with heq
  refine ⟨_, hone, rfl, ?_⟩
  refine hsub _ ?_
  rw [← heq]
  simp

/-- C9 (witness): the singular case report `"a new case"` — the
selected match has no `'count'` role and is emitted with count 1. -/
theorem no_count_role_emits_count_one_witness :
    ∃ cs, emitOne digitsParse docSingular
        (.node [.node [.leaf 6 10] none] (some "case")) = .ok [cs] ∧
      cs.metadata.count = some 1 ∧
      cs ∈ [(⟨6, 10, "a new case", "case",
        ⟨"case", ["case"], some 1⟩⟩ : CountSpan)] := by
  refine no_count_role_emits_count_one digitsParse docSingular
    (.node [.node [.leaf 6 10] none] (some "case")) _ ?_ rfl rfl
  have h : annotatedCounts digitsParse docSingular =
      [.node [.node [.leaf 6 10] none] (some "case")] := rfl
  rw [h]
  simp

/-- C10: with `drop_previous=False` and an `itis_version` metadata row
already present, `import_species` returns early and leaves the
entities, synonyms and metadata tables unchanged. -/
theorem import_species_early_return (itis : ItisData) (db : DB)
    (h : db.metadata.any (fun m => m.property = "itis_version") = true) :
    importSpecies false itis db = db := by
  unfold importSpecies
  simp only [Bool.false_eq_true, if_false]
  rw [if_pos h]

/-- C10 (witness): a database whose metadata already records an ITIS
version is left unchanged. -/
theorem import_species_early_return_witness :
    importSpecies false ⟨"v2", [], []⟩
      ⟨[], [], [⟨"itis_version", "v1"⟩]⟩ =
      ⟨[], [], [⟨"itis_version", "v1"⟩]⟩ :=
  import_species_early_return ⟨"v2", [], []⟩
    ⟨[], [], [⟨"itis_version", "v1"⟩]⟩ (by decide)

end EpiTator
